import Mathlib

/-!
# Pylons: recipe matching and parameter actualization

A shallow embedding of

* `x/pylons/keeper/msg_server_execute_recipe.go` (`Match`, `MatchItemInputs`,
  `ExecuteRecipe`),
* `x/pylons/types/long_param.go` (`LongParamList.Actualize`),
* `x/pylons/types/double_param.go` (`DoubleParamList.Actualize`),
* `x/pylons/types/test_utils.go` (`GenModifyParamsForLong`),
* `x/pylons/handlers/disable_trade.go` (`HandlerMsgDisableTrade`),

followed by theorems about them.

Conventions of the embedding.

* A Go slice is a `List`; the `nil` slice is `[]`.
* A Go `error` is `Option GoError`; `nil` is `none`.
* A Go `(T, bool)` lookup result is `Option T`.
* `float64` is a type parameter `F`; the two library conversions the code applies to a
  float are the fields of `Float64Ops`.
* `int64` and `int` are `Int` (no arithmetic is performed on them here; `int` is 64 bits wide
  on the platforms the chain runs on, so `int(long)` is the identity).
* Calls to the external collaborators (item store, environment factory, expression
  evaluator, weighted sampler) are recorded, in order, in a list of `Call`s, so that
  statements of the form "the store is not consulted" can be written down.
* A store that a function writes to (pending executions, trades) is a state of a type `S`
  that is passed in and handed back, next to the list of the writes made.
-/

namespace Pylons

/-! ## Errors -/

/-- Go `error` values as they are built in the sources: errors registered with
`sdkerrors.Register`, plain errors carrying a message, and `sdkerrors.Wrap parent description`. -/
inductive GoError where
  | registered (description : String)
  | plain (message : String)
  | wrap (parent : GoError) (description : String)
  deriving DecidableEq, Repr

/-- The method `Error()`: a wrapped error renders as `description: parent`. -/
def GoError.Error : GoError → String
  | .registered d => d
  | .plain m => m
  | .wrap p d => d ++ ": " ++ GoError.Error p

/-- The library error `sdkerrors.ErrInvalidRequest`. -/
def ErrInvalidRequest : GoError := .registered "invalid request"

/-- Modelled from the spec: `types.ErrItemMatch`, the registered error every mismatch reason of
`Match` wraps; its declaration is not part of the sources, only its uses are. -/
def ErrItemMatch : GoError := .registered "item match error"

/-! ## Data model -/

/-- The library type `sdk.Dec`: a fixed-point decimal, held as its scaled integer. -/
structure Dec where
  raw : Int
  deriving DecidableEq, Repr

/-- An item: an identifier and three key/value collections (doubles, longs, strings). The zero
value `Item{}` is `⟨"", [], [], []⟩`. -/
structure Item where
  ID : String
  Doubles : List (String × Dec)
  Longs : List (String × Int)
  Strings : List (String × String)
  deriving DecidableEq, Repr

/-- The zero value `Item{}`, which fills `make([]types.Item, n)`. -/
def Item.zero : Item := ⟨"", [], [], []⟩

/-- Modelled from the spec: `Item.FindDouble` is not part of the sources; the spec has it as
"the item must have that field (lookup by key)". -/
def Item.FindDouble (item : Item) (key : String) : Option Dec :=
  item.Doubles.lookup key

/-- Modelled from the spec: `Item.FindLong`, lookup by key. -/
def Item.FindLong (item : Item) (key : String) : Option Int :=
  item.Longs.lookup key

/-- Modelled from the spec: `Item.FindString`, lookup by key. -/
def Item.FindString (item : Item) (key : String) : Option String :=
  item.Strings.lookup key

structure DoubleInputParam where
  Key : String
  MinValue : Dec
  MaxValue : Dec
  deriving DecidableEq, Repr

structure LongInputParam where
  Key : String
  MinValue : Int
  MaxValue : Int
  deriving DecidableEq, Repr

structure StringInputParam where
  Key : String
  Value : String
  deriving DecidableEq, Repr

/-- Modelled from the spec: `DoubleInputParam.Has` is not part of the sources; the spec has
"Range checks are inclusive-bounds containment (`Lower ≤ value ≤ Upper`)". -/
def DoubleInputParam.Has (param : DoubleInputParam) (input : Dec) : Bool :=
  decide (param.MinValue.raw ≤ input.raw) && decide (input.raw ≤ param.MaxValue.raw)

/-- Modelled from the spec: `LongInputParam.Has`, inclusive-bounds containment. -/
def LongInputParam.Has (param : LongInputParam) (input : Int) : Bool :=
  decide (param.MinValue ≤ input) && decide (input ≤ param.MaxValue)

/-- The expression-based conditions of a slot. -/
structure ConditionList where
  Doubles : List DoubleInputParam
  Longs : List LongInputParam
  Strings : List StringInputParam
  deriving DecidableEq, Repr

/-- One item-input slot of a recipe, with the fields `Match` reads. -/
structure ItemInput where
  Doubles : List DoubleInputParam
  Longs : List LongInputParam
  Strings : List StringInputParam
  Conditions : ConditionList
  deriving DecidableEq, Repr

/-- A recipe, with the fields `MatchItemInputs` reads. -/
structure Recipe where
  CookbookID : String
  ID : String
  ItemInputs : List ItemInput
  deriving DecidableEq, Repr

/-- The expression environment `types.CelEnvCollection`: three typed evaluation entry points
over program strings. -/
structure CelEnvCollection (F : Type) where
  EvalFloat64 : String → Except GoError F
  EvalInt64 : String → Except GoError Int
  EvalString : String → Except GoError String

/-- The two library conversions applied to a `float64`. -/
structure Float64Ops (F : Type) where
  /-- The composition `sdk.NewDecFromStr(fmt.Sprintf("%v", f))`. -/
  NewDecFromStr : F → Except GoError Dec
  /-- The helper `types.ToFloatString`. -/
  ToFloatString : F → String

/-! ### Output parameters -/

structure IntWeightRange where
  Lower : Int
  Upper : Int
  Weight : Int
  deriving DecidableEq, Repr

structure IntWeightTable where
  WeightRanges : List IntWeightRange
  deriving DecidableEq, Repr

structure DoubleWeightRange where
  Lower : Dec
  Upper : Dec
  Weight : Int
  deriving DecidableEq, Repr

structure DoubleWeightTable where
  WeightRanges : List DoubleWeightRange
  deriving DecidableEq, Repr

/-- A long output parameter, with the fields `Actualize` reads. -/
structure LongParam where
  Key : String
  Program : String
  WeightTable : IntWeightTable
  deriving DecidableEq, Repr

structure LongParamList where
  Params : List LongParam
  deriving DecidableEq, Repr

/-- A double output parameter, with the fields `Actualize` reads. -/
structure DoubleParam where
  Key : String
  Program : String
  WeightTable : DoubleWeightTable
  deriving DecidableEq, Repr

structure DoubleParamList where
  List : List DoubleParam
  deriving DecidableEq, Repr

/-- An actualized long: `LongKeyValue{Key, Value}`. -/
structure LongKeyValue where
  Key : String
  Value : Int
  deriving DecidableEq, Repr

/-- An actualized double: `DoubleKeyValue{Key, Value}`, the value being the string
`ToFloatString` renders. -/
structure DoubleKeyValue where
  Key : String
  Value : String
  deriving DecidableEq, Repr

/-- The weighted sampler: the two `Generate` methods of the weight tables, which are not part
of the sources. They read the process-wide random source, whose state `R` is passed in and
handed back. -/
structure Sampler (F R : Type) where
  GenerateLong : IntWeightTable → R → Except GoError Int × R
  GenerateDouble : DoubleWeightTable → R → Except GoError F × R

/-- A call to an external collaborator. -/
inductive Call where
  | GetItem (cookbookID recipeID id : String)
  | EnvCollection (recipeID outputID : String) (item : Item)
  | EvalInt64 (program : String)
  | EvalFloat64 (program : String)
  | EvalString (program : String)
  | GenerateLong (table : IntWeightTable)
  | GenerateDouble (table : DoubleWeightTable)
  deriving DecidableEq, Repr

/-- The keeper together with the context it is called in: the item store and the environment
factory. -/
structure Keeper (F : Type) where
  GetItem : String → String → String → Option Item
  EnvCollection : String → String → Item → Except GoError (CelEnvCollection F)

/-! ## `Match` -/

/-- Lines 16-27 of `Match`: the loop over the declared double constraints. -/
def matchDoubles (item : Item) : List DoubleInputParam → Option GoError
  | [] => none
  | param :: rest =>
    match item.FindDouble param.Key with
    | none => some (.wrap ErrItemMatch
        (param.Key ++ " key is not available on the item: item_id=" ++ item.ID))
    | some double =>
      if !param.Has double then
        some (.wrap ErrItemMatch (param.Key ++ " key range does not match: item_id=" ++ item.ID))
      else matchDoubles item rest

/-- Lines 29-40 of `Match`: the loop over the declared long constraints. -/
def matchLongs (item : Item) : List LongInputParam → Option GoError
  | [] => none
  | param :: rest =>
    match item.FindLong param.Key with
    | none => some (.wrap ErrItemMatch
        (param.Key ++ " key is not available on the item: item_id=" ++ item.ID))
    | some long =>
      if !param.Has long then
        some (.wrap ErrItemMatch (param.Key ++ " key range does not match: item_id=" ++ item.ID))
      else matchLongs item rest

/-- Lines 42-52 of `Match`: the loop over the declared string constraints. -/
def matchStrings (item : Item) : List StringInputParam → Option GoError
  | [] => none
  | param :: rest =>
    match item.FindString param.Key with
    | none => some (.wrap ErrItemMatch
        (param.Key ++ " key is not available on the item: item_id=" ++ item.ID))
    | some str =>
      if str ≠ param.Value then
        some (.wrap ErrItemMatch (param.Key ++ " key value does not match: item_id=" ++ item.ID))
      else matchStrings item rest

/-- Lines 54-68 of `Match`: the loop over the double conditions. The program evaluated is
`param.Key`; the `%+v` rendering of the evaluator error is taken to be its `Error()`. -/
def matchConditionDoubles {F : Type} (ops : Float64Ops F) (item : Item)
    (ec : CelEnvCollection F) : List DoubleInputParam → Option GoError
  | [] => none
  | param :: rest =>
    match ec.EvalFloat64 param.Key with
    | .error err => some (.wrap ErrItemMatch
        (param.Key ++ " expression is invalid: item_id=" ++ item.ID ++ ", " ++ err.Error))
    | .ok double =>
      match ops.NewDecFromStr double with
      | .error err => some err
      | .ok dec =>
        if !param.Has dec then
          some (.wrap ErrItemMatch
            (param.Key ++ " expression range does not match: item_id=" ++ item.ID))
        else matchConditionDoubles ops item ec rest

/-- Lines 70-79 of `Match`: the loop over the long conditions. -/
def matchConditionLongs {F : Type} (item : Item)
    (ec : CelEnvCollection F) : List LongInputParam → Option GoError
  | [] => none
  | param :: rest =>
    match ec.EvalInt64 param.Key with
    | .error err => some (.wrap ErrItemMatch
        (param.Key ++ " expression is invalid: item_id=" ++ item.ID ++ ", " ++ err.Error))
    | .ok long =>
      if !param.Has long then
        some (.wrap ErrItemMatch
          (param.Key ++ " expression range does not match: item_id=" ++ item.ID))
      else matchConditionLongs item ec rest

/-- Lines 81-89 of `Match`: the loop over the string conditions. -/
def matchConditionStrings {F : Type} (item : Item)
    (ec : CelEnvCollection F) : List StringInputParam → Option GoError
  | [] => none
  | param :: rest =>
    match ec.EvalString param.Key with
    | .error err => some (.wrap ErrItemMatch
        (param.Key ++ " expression is invalid: item_id=" ++ item.ID ++ ", " ++ err.Error))
    | .ok str =>
      if str ≠ param.Value then
        some (.wrap ErrItemMatch
          (param.Key ++ " expression value does not match: item_id=" ++ item.ID))
      else matchConditionStrings item ec rest

/-- The function `Match`: checks if all the constraints of a slot match the given item. The
six loops run one after the other and the first error ends the call. -/
def Match {F : Type} (ops : Float64Ops F) (item : Item) (itemInput : ItemInput)
    (ec : CelEnvCollection F) : Option GoError :=
  match matchDoubles item itemInput.Doubles with
  | some err => some err
  | none =>
  match matchLongs item itemInput.Longs with
  | some err => some err
  | none =>
  match matchStrings item itemInput.Strings with
  | some err => some err
  | none =>
  match matchConditionDoubles ops item ec itemInput.Conditions.Doubles with
  | some err => some err
  | none =>
  match matchConditionLongs item ec itemInput.Conditions.Longs with
  | some err => some err
  | none => matchConditionStrings item ec itemInput.Conditions.Strings

/-! ## `Match` with its calls

`Match` again, this time recording the evaluations it asks of the expression environment. The
three loops over the declared constraints make no call. -/

/-- Lines 54-68 of `Match`, with the evaluations recorded. -/
def matchConditionDoublesTraced {F : Type} (ops : Float64Ops F) (item : Item)
    (ec : CelEnvCollection F) : List DoubleInputParam → List Call → Option GoError × List Call
  | [], calls => (none, calls)
  | param :: rest, calls =>
    match ec.EvalFloat64 param.Key with
    | .error err => (some (.wrap ErrItemMatch
        (param.Key ++ " expression is invalid: item_id=" ++ item.ID ++ ", " ++ err.Error)),
        calls ++ [Call.EvalFloat64 param.Key])
    | .ok double =>
      match ops.NewDecFromStr double with
      | .error err => (some err, calls ++ [Call.EvalFloat64 param.Key])
      | .ok dec =>
        if !param.Has dec then
          (some (.wrap ErrItemMatch
            (param.Key ++ " expression range does not match: item_id=" ++ item.ID)),
            calls ++ [Call.EvalFloat64 param.Key])
        else matchConditionDoublesTraced ops item ec rest (calls ++ [Call.EvalFloat64 param.Key])

/-- Lines 70-79 of `Match`, with the evaluations recorded. -/
def matchConditionLongsTraced {F : Type} (item : Item)
    (ec : CelEnvCollection F) : List LongInputParam → List Call → Option GoError × List Call
  | [], calls => (none, calls)
  | param :: rest, calls =>
    match ec.EvalInt64 param.Key with
    | .error err => (some (.wrap ErrItemMatch
        (param.Key ++ " expression is invalid: item_id=" ++ item.ID ++ ", " ++ err.Error)),
        calls ++ [Call.EvalInt64 param.Key])
    | .ok long =>
      if !param.Has long then
        (some (.wrap ErrItemMatch
          (param.Key ++ " expression range does not match: item_id=" ++ item.ID)),
          calls ++ [Call.EvalInt64 param.Key])
      else matchConditionLongsTraced item ec rest (calls ++ [Call.EvalInt64 param.Key])

/-- Lines 81-89 of `Match`, with the evaluations recorded. -/
def matchConditionStringsTraced {F : Type} (item : Item)
    (ec : CelEnvCollection F) : List StringInputParam → List Call → Option GoError × List Call
  | [], calls => (none, calls)
  | param :: rest, calls =>
    match ec.EvalString param.Key with
    | .error err => (some (.wrap ErrItemMatch
        (param.Key ++ " expression is invalid: item_id=" ++ item.ID ++ ", " ++ err.Error)),
        calls ++ [Call.EvalString param.Key])
    | .ok str =>
      if str ≠ param.Value then
        (some (.wrap ErrItemMatch
          (param.Key ++ " expression value does not match: item_id=" ++ item.ID)),
          calls ++ [Call.EvalString param.Key])
      else matchConditionStringsTraced item ec rest (calls ++ [Call.EvalString param.Key])

/-- The function `Match` with the evaluations it asks of the environment, in order. -/
def MatchTraced {F : Type} (ops : Float64Ops F) (item : Item) (itemInput : ItemInput)
    (ec : CelEnvCollection F) : Option GoError × List Call :=
  match matchDoubles item itemInput.Doubles with
  | some err => (some err, [])
  | none =>
  match matchLongs item itemInput.Longs with
  | some err => (some err, [])
  | none =>
  match matchStrings item itemInput.Strings with
  | some err => (some err, [])
  | none =>
  match matchConditionDoublesTraced ops item ec itemInput.Conditions.Doubles [] with
  | (some err, calls) => (some err, calls)
  | (none, calls) =>
  match matchConditionLongsTraced item ec itemInput.Conditions.Longs calls with
  | (some err, calls) => (some err, calls)
  | (none, calls) => matchConditionStringsTraced item ec itemInput.Conditions.Strings calls

/-! ## The checks of a slot, one at a time

The specification lists the checks of a slot in an order and has `Match` stop at the first
that fails. Each check is a value here: `none` when it passes, the reason when it fails. -/

/-- The check of one declared double constraint: the item has the field, and its value lies
in the range. -/
def checkDouble (item : Item) (param : DoubleInputParam) : Option GoError :=
  match item.FindDouble param.Key with
  | none => some (.wrap ErrItemMatch
      (param.Key ++ " key is not available on the item: item_id=" ++ item.ID))
  | some double =>
    if param.Has double then none
    else some (.wrap ErrItemMatch (param.Key ++ " key range does not match: item_id=" ++ item.ID))

/-- The check of one declared long constraint. -/
def checkLong (item : Item) (param : LongInputParam) : Option GoError :=
  match item.FindLong param.Key with
  | none => some (.wrap ErrItemMatch
      (param.Key ++ " key is not available on the item: item_id=" ++ item.ID))
  | some long =>
    if param.Has long then none
    else some (.wrap ErrItemMatch (param.Key ++ " key range does not match: item_id=" ++ item.ID))

/-- The check of one declared string constraint: the item has the field with exactly the
declared value. -/
def checkString (item : Item) (param : StringInputParam) : Option GoError :=
  match item.FindString param.Key with
  | none => some (.wrap ErrItemMatch
      (param.Key ++ " key is not available on the item: item_id=" ++ item.ID))
  | some str =>
    if str = param.Value then none
    else some (.wrap ErrItemMatch (param.Key ++ " key value does not match: item_id=" ++ item.ID))

/-- The check of one double condition: the expression evaluates, its value converts to a
decimal, and the decimal lies in the range. -/
def checkConditionDouble {F : Type} (ops : Float64Ops F) (item : Item)
    (ec : CelEnvCollection F) (param : DoubleInputParam) : Option GoError :=
  match ec.EvalFloat64 param.Key with
  | .error err => some (.wrap ErrItemMatch
      (param.Key ++ " expression is invalid: item_id=" ++ item.ID ++ ", " ++ err.Error))
  | .ok double =>
    match ops.NewDecFromStr double with
    | .error err => some err
    | .ok dec =>
      if param.Has dec then none
      else some (.wrap ErrItemMatch
        (param.Key ++ " expression range does not match: item_id=" ++ item.ID))

/-- The check of one long condition. -/
def checkConditionLong {F : Type} (item : Item) (ec : CelEnvCollection F)
    (param : LongInputParam) : Option GoError :=
  match ec.EvalInt64 param.Key with
  | .error err => some (.wrap ErrItemMatch
      (param.Key ++ " expression is invalid: item_id=" ++ item.ID ++ ", " ++ err.Error))
  | .ok long =>
    if param.Has long then none
    else some (.wrap ErrItemMatch
      (param.Key ++ " expression range does not match: item_id=" ++ item.ID))

/-- The check of one string condition. -/
def checkConditionString {F : Type} (item : Item) (ec : CelEnvCollection F)
    (param : StringInputParam) : Option GoError :=
  match ec.EvalString param.Key with
  | .error err => some (.wrap ErrItemMatch
      (param.Key ++ " expression is invalid: item_id=" ++ item.ID ++ ", " ++ err.Error))
  | .ok str =>
    if str = param.Value then none
    else some (.wrap ErrItemMatch
      (param.Key ++ " expression value does not match: item_id=" ++ item.ID))

/-- The declared field checks of a slot in the order of the specification: doubles, longs,
strings, each group in list order. -/
def declaredChecks (item : Item) (itemInput : ItemInput) : List (Option GoError) :=
  itemInput.Doubles.map (checkDouble item) ++ itemInput.Longs.map (checkLong item) ++
    itemInput.Strings.map (checkString item)

/-- The condition checks of a slot in the order of the specification: doubles, longs,
strings, each group in list order. -/
def conditionChecks {F : Type} (ops : Float64Ops F) (item : Item) (itemInput : ItemInput)
    (ec : CelEnvCollection F) : List (Option GoError) :=
  itemInput.Conditions.Doubles.map (checkConditionDouble ops item ec) ++
    itemInput.Conditions.Longs.map (checkConditionLong item ec) ++
    itemInput.Conditions.Strings.map (checkConditionString item ec)

/-- The reason of the first failing check of a list, `none` when every check passes. -/
def firstFailure : List (Option GoError) → Option GoError
  | [] => none
  | some err :: _ => some err
  | none :: rest => firstFailure rest

/-- The number of checks that pass before the first failing one. -/
def leadingPasses : List (Option GoError) → Nat
  | none :: rest => leadingPasses rest + 1
  | _ => 0

/-- The evaluations the condition checks of a slot ask for, in the order of the
specification. -/
def conditionEvaluations (itemInput : ItemInput) : List Call :=
  itemInput.Conditions.Doubles.map (fun param => Call.EvalFloat64 param.Key) ++
    itemInput.Conditions.Longs.map (fun param => Call.EvalInt64 param.Key) ++
    itemInput.Conditions.Strings.map (fun param => Call.EvalString param.Key)

/-! ## `MatchItemInputs` -/

/-- The local variables of `MatchItemInputs` that live across loop iterations, and the calls
made so far. The Go map `inputItemMap` is an association list, newest binding first. -/
structure MatchState where
  matchedItems : List Item
  inputItemMap : List (String × Item)
  checkedInputItems : List Bool
  calls : List Call
  deriving DecidableEq, Repr

/-- What `MatchItemInputs` returns, with the calls it made. -/
structure MatchResult where
  items : List Item
  err : Option GoError
  calls : List Call
  deriving DecidableEq, Repr

/-- How the inner loop (lines 105-129) ends: with a `return` of the whole function, or by
running out of candidates or a `break`, leaving the loop with the variable `err`. -/
inductive Scan where
  | returned (err : GoError) (calls : List Call)
  | finished (st : MatchState) (err : Option GoError)
  deriving DecidableEq, Repr

/-- The inner loop `for j, id := range inputItemsIDs` (lines 105-129) for slot `i`, from
position `j` on; `err` is the variable declared on line 104. -/
def scanCandidates {F : Type} (ops : Float64Ops F) (k : Keeper F) (recipe : Recipe) (i : Nat)
    (recipeItemInput : ItemInput) : Nat → List String → MatchState → Option GoError → Scan
  | _, [], st, err => .finished st err
  | j, id :: rest, st, err =>
    if st.checkedInputItems.getD j false then
      scanCandidates ops k recipe i recipeItemInput (j + 1) rest st err
    else
      let lookedUp : Option Item × List Call :=
        match st.inputItemMap.lookup id with
        | some inputItem => (some inputItem, st.calls)
        | none => (k.GetItem recipe.CookbookID recipe.ID id,
            st.calls ++ [Call.GetItem recipe.CookbookID recipe.ID id])
      match lookedUp with
      | (none, calls) =>
        .returned (.wrap ErrInvalidRequest ("item with id " ++ id ++ " not found")) calls
      | (some inputItem, calls) =>
        let calls := calls ++ [Call.EnvCollection recipe.ID "" inputItem]
        match k.EnvCollection recipe.ID "" inputItem with
        | .error err => .returned (.wrap ErrInvalidRequest err.Error) calls
        | .ok ec =>
          match Match ops inputItem recipeItemInput ec with
          | some err =>
            .finished
              { matchedItems := st.matchedItems.set i inputItem
                inputItemMap := (id, inputItem) :: st.inputItemMap
                checkedInputItems := st.checkedInputItems.set j true
                calls := calls }
              (some err)
          | none =>
            scanCandidates ops k recipe i recipeItemInput (j + 1) rest
              { st with inputItemMap := (id, inputItem) :: st.inputItemMap, calls := calls }
              none

/-- The outer loop `for i, recipeItemInput := range recipe.ItemInputs` (lines 103-133), from
slot `i` on, and the final `return matchedItems, nil`. -/
def matchSlots {F : Type} (ops : Float64Ops F) (k : Keeper F) (inputItemsIDs : List String)
    (recipe : Recipe) : Nat → List ItemInput → MatchState → MatchResult
  | _, [], st => ⟨st.matchedItems, none, st.calls⟩
  | i, recipeItemInput :: rest, st =>
    match scanCandidates ops k recipe i recipeItemInput 0 inputItemsIDs st none with
    | .returned err calls => ⟨[], some err, calls⟩
    | .finished st1 (some _) =>
      ⟨[], some (.wrap ErrInvalidRequest "cannot find match for recipe input item "), st1.calls⟩
    | .finished st1 none => matchSlots ops k inputItemsIDs recipe (i + 1) rest st1

/-- The method `msgServer.MatchItemInputs`. -/
def MatchItemInputs {F : Type} (ops : Float64Ops F) (k : Keeper F) (inputItemsIDs : List String)
    (recipe : Recipe) : MatchResult :=
  if inputItemsIDs.length ≠ recipe.ItemInputs.length then
    ⟨[], some (.wrap ErrInvalidRequest
      "size mismatch between provided input items and items required by recipe"), []⟩
  else
    matchSlots ops k inputItemsIDs recipe 0 recipe.ItemInputs
      { matchedItems := List.replicate recipe.ItemInputs.length Item.zero
        inputItemMap := []
        checkedInputItems := List.replicate inputItemsIDs.length false
        calls := [] }

/-! ## `Actualize` -/

/-- What `LongParamList.Actualize` returns, with the state of the random source it leaves and
the calls it made. -/
structure LongActualized (R : Type) where
  m : List LongKeyValue
  err : Option GoError
  rand : R
  calls : List Call

/-- What `DoubleParamList.Actualize` returns. -/
structure DoubleActualized (R : Type) where
  m : List DoubleKeyValue
  err : Option GoError
  rand : R
  calls : List Call

/-- Lines 11-15 of `LongParamList.Actualize`: the value of one parameter, from its program
when it has one and from its weight table otherwise, with the random source and the calls
afterwards. -/
def longParamValue {F R : Type} (ec : CelEnvCollection F) (sampler : Sampler F R)
    (param : LongParam) (rand : R) (calls : List Call) : Except GoError Int × R × List Call :=
  if param.Program.length > 0 then
    (ec.EvalInt64 param.Program, rand, calls ++ [Call.EvalInt64 param.Program])
  else
    ((sampler.GenerateLong param.WeightTable rand).1,
      (sampler.GenerateLong param.WeightTable rand).2,
      calls ++ [Call.GenerateLong param.WeightTable])

/-- The loop of `LongParamList.Actualize` (lines 7-23) and the final `return m, nil`; `m` is
the slice built so far. -/
def actualizeLongs {F R : Type} (ec : CelEnvCollection F) (sampler : Sampler F R) :
    List LongParam → List LongKeyValue → R → List Call → LongActualized R
  | [], m, rand, calls => ⟨m, none, rand, calls⟩
  | param :: rest, m, rand, calls =>
    match longParamValue ec sampler param rand calls with
    | (.error err, rand1, calls1) => ⟨m, some err, rand1, calls1⟩
    | (.ok val, rand1, calls1) =>
      actualizeLongs ec sampler rest (m ++ [⟨param.Key, val⟩]) rand1 calls1

/-- The method `LongParamList.Actualize`: builds the params. -/
def LongParamList.Actualize {F R : Type} (lpm : LongParamList) (ec : CelEnvCollection F)
    (sampler : Sampler F R) (rand : R) : LongActualized R :=
  actualizeLongs ec sampler lpm.Params [] rand []

/-- Lines 57-61 of `DoubleParamList.Actualize`: the value of one parameter. -/
def doubleParamValue {F R : Type} (ec : CelEnvCollection F) (sampler : Sampler F R)
    (param : DoubleParam) (rand : R) (calls : List Call) : Except GoError F × R × List Call :=
  if param.Program.length > 0 then
    (ec.EvalFloat64 param.Program, rand, calls ++ [Call.EvalFloat64 param.Program])
  else
    ((sampler.GenerateDouble param.WeightTable rand).1,
      (sampler.GenerateDouble param.WeightTable rand).2,
      calls ++ [Call.GenerateDouble param.WeightTable])

/-- The loop of `DoubleParamList.Actualize` (lines 53-69) and the final `return m, nil`. -/
def actualizeDoubles {F R : Type} (ops : Float64Ops F) (ec : CelEnvCollection F)
    (sampler : Sampler F R) :
    List DoubleParam → List DoubleKeyValue → R → List Call → DoubleActualized R
  | [], m, rand, calls => ⟨m, none, rand, calls⟩
  | param :: rest, m, rand, calls =>
    match doubleParamValue ec sampler param rand calls with
    | (.error err, rand1, calls1) => ⟨m, some err, rand1, calls1⟩
    | (.ok val, rand1, calls1) =>
      actualizeDoubles ops ec sampler rest (m ++ [⟨param.Key, ops.ToFloatString val⟩])
        rand1 calls1

/-- The method `DoubleParamList.Actualize`: creates a (key, value) list from the param list. -/
def DoubleParamList.Actualize {F R : Type} (dpm : DoubleParamList) (ops : Float64Ops F)
    (ec : CelEnvCollection F) (sampler : Sampler F R) (rand : R) : DoubleActualized R :=
  actualizeDoubles ops ec sampler dpm.List [] rand []

/-! ## `ExecuteRecipe` -/

/-- A frozen copy of the attributes of a matched item. -/
structure ItemRecord where
  ID : String
  Doubles : List (String × Dec)
  Longs : List (String × Int)
  Strings : List (String × String)
  deriving DecidableEq, Repr

/-- The record of one recipe execution. `BlockHeight` is a `uint64`; `CoinInputs`, of the
library type `sdk.Coins`, is a list of denominations and amounts. -/
structure Execution where
  Creator : String
  CookbookID : String
  RecipeID : String
  NodeVersion : String
  BlockHeight : Nat
  CoinInputs : List (String × Int)
  ItemInputs : List ItemRecord
  deriving DecidableEq, Repr

structure MsgExecuteRecipe where
  Creator : String
  CookbookID : String
  RecipeID : String
  ItemIDs : List String
  deriving DecidableEq, Repr

structure MsgExecuteRecipeResponse where
  ID : String
  deriving DecidableEq, Repr

/-- The message server together with the context of one call: the keeper `MatchItemInputs`
uses, the recipe store, the store of pending executions (`AppendPendingExecution` reads and
changes its state `S` and returns the identifier of the new execution), the block height of
the context (an `int64`) and `config.GetNodeVersionString()`. -/
structure MsgServer (F S : Type) where
  keeper : Keeper F
  GetRecipe : String → String → Option Recipe
  AppendPendingExecution : S → Execution → String × S
  BlockHeight : Int
  GetNodeVersionString : String

/-- The conversion `uint64(x)` of an `int64`. -/
def uint64 (x : Int) : Nat := (x % 18446744073709551616).toNat

/-- What `ExecuteRecipe` returns, with the state of the pending-execution store it leaves and
the executions it passed to `AppendPendingExecution`, in order. -/
structure ExecuteRecipeResult (S : Type) where
  response : Option MsgExecuteRecipeResponse
  err : Option GoError
  store : S
  appended : List Execution

/-- The method `msgServer.ExecuteRecipe`. -/
def ExecuteRecipe {F S : Type} (ops : Float64Ops F) (k : MsgServer F S) (store : S)
    (msg : MsgExecuteRecipe) : ExecuteRecipeResult S :=
  match k.GetRecipe msg.CookbookID msg.RecipeID with
  | none => ⟨none, some (.wrap ErrInvalidRequest "could not find recipe"), store, []⟩
  | some recipe =>
    match MatchItemInputs ops k.keeper msg.ItemIDs recipe with
    | ⟨_, some err, _⟩ => ⟨none, some (.wrap ErrInvalidRequest err.Error), store, []⟩
    | ⟨matchedItems, none, _⟩ =>
      let itemRecords : List ItemRecord := matchedItems.map (fun item =>
        { ID := item.ID, Doubles := item.Doubles, Longs := item.Longs, Strings := item.Strings })
      let execution : Execution :=
        { Creator := msg.Creator
          CookbookID := msg.CookbookID
          RecipeID := msg.RecipeID
          NodeVersion := k.GetNodeVersionString
          BlockHeight := uint64 k.BlockHeight
          CoinInputs := []
          ItemInputs := itemRecords }
      ⟨some ⟨(k.AppendPendingExecution store execution).1⟩, none,
        (k.AppendPendingExecution store execution).2, [execution]⟩

/-! ## The weighted sampler for longs and `GenModifyParamsForLong` -/

/-- Modelled from the spec: the deterministic random source of the weighted sampler, a
sequence of draws and the position of the next one. -/
structure Rand where
  source : Nat → Nat
  pos : Nat

/-- Modelled from the spec: one draw below `n` from the random source. -/
def Rand.below (rand : Rand) (n : Nat) : Nat × Rand :=
  (rand.source rand.pos % n, ⟨rand.source, rand.pos + 1⟩)

/-- Modelled from the spec: the range a draw below the total weight lands in, each range
taking as many draws as its weight (none when its weight is not positive). -/
def pickRange : List IntWeightRange → Nat → Option IntWeightRange
  | [], _ => none
  | range :: rest, draw =>
    if draw < range.Weight.toNat then some range
    else pickRange rest (draw - range.Weight.toNat)

/-- Modelled from the spec: `IntWeightTable.Generate` is not part of the sources. The
specification has it choose range `i` with probability `Weight_i / Σ Weight` and then a value
uniformly in `[Lower_i, Upper_i]` inclusive, fail with a "cannot sample" error on an empty
table or when all weights are `≤ 0`, and support the single-point range `Lower = Upper`. -/
def IntWeightTable.Generate (wt : IntWeightTable) (rand : Rand) : Except GoError Int × Rand :=
  let total := (wt.WeightRanges.map (fun range => range.Weight.toNat)).sum
  if total = 0 then (.error (.plain "cannot sample"), rand)
  else
    match pickRange wt.WeightRanges (rand.below total).1 with
    | none => (.error (.plain "cannot sample"), (rand.below total).2)
    | some range =>
      if range.Lower < range.Upper then
        (.ok (range.Lower +
            (((rand.below total).2.below (range.Upper - range.Lower + 1).toNat).1 : Nat)),
          ((rand.below total).2.below (range.Upper - range.Lower + 1).toNat).2)
      else (.ok range.Lower, (rand.below total).2)

/-- A string output parameter. -/
structure StringParam where
  Key : String
  Value : String
  Program : String
  deriving DecidableEq, Repr

structure StringParamList where
  List : List StringParam
  deriving DecidableEq, Repr

structure ItemModifyParams where
  Doubles : DoubleParamList
  Longs : LongParamList
  Strings : StringParamList
  deriving DecidableEq, Repr

/-- The function `GenModifyParamsForLong` of `test_utils.go`: modify params from a long key
and value. The fields it leaves out are zero values. -/
def GenModifyParamsForLong (targetKey : String) (upgradeAmount : Int) : ItemModifyParams :=
  { Doubles := ⟨[]⟩
    Longs := ⟨[{ Key := targetKey
                 Program := ""
                 WeightTable := ⟨[{ Lower := upgradeAmount
                                    Upper := upgradeAmount
                                    Weight := 1 }]⟩ }]⟩
    Strings := ⟨[]⟩ }

/-! ## `HandlerMsgDisableTrade` -/

/-- The library type `sdk.AccAddress`: a byte slice, `none` being the `nil` slice. -/
structure AccAddress where
  bytes : Option (List Nat)
  deriving DecidableEq, Repr

/-- The library method `AccAddress.Equals`: both addresses are empty, or they hold the same
bytes. -/
def AccAddress.Equals (aa aa2 : AccAddress) : Bool :=
  aa.bytes.getD [] == aa2.bytes.getD []

/-- Modelled from the spec: the type `Trade` is not part of the sources; the specification
gives it a sender, a fulfiller, a completed flag and a disabled flag. -/
structure Trade where
  Sender : AccAddress
  FulFiller : AccAddress
  Disabled : Bool
  Completed : Bool
  deriving DecidableEq, Repr

structure MsgDisableTrade where
  TradeID : String
  Sender : AccAddress
  deriving DecidableEq, Repr

/-- The response `DisableTradeResponse` of the handler. -/
structure DisableTradeResponse where
  Message : String
  Status : String
  deriving DecidableEq, Repr

/-- The library type `sdk.Result`, reduced to its data. -/
structure Result where
  Data : String
  deriving DecidableEq, Repr

/-- The library error `sdkerrors.ErrUnauthorized`. -/
def ErrUnauthorized : GoError := .registered "unauthorized"

/-- The trade keeper `keep.Keeper` with the context of one call; `S` is the state of the
trade store. -/
structure TradeKeeper (S : Type) where
  GetTrade : S → String → Except GoError Trade
  UpdateTrade : S → String → Trade → Option GoError × S

/-- The helpers of the handler that are not part of the sources: `msg.ValidateBasic()`, and
`errInternal` and `marshalJSON` of the package `handlers`. -/
structure HandlerHelpers where
  ValidateBasic : MsgDisableTrade → Option GoError
  errInternal : GoError → GoError
  marshalJSON : DisableTradeResponse → Option Result × Option GoError

/-- What `HandlerMsgDisableTrade` returns, with the state of the trade store it leaves and
the arguments of its calls of `UpdateTrade`, in order. -/
structure DisableTradeResult (S : Type) where
  result : Option Result
  err : Option GoError
  store : S
  updates : List (String × Trade)

/-- The function `HandlerMsgDisableTrade`. -/
def HandlerMsgDisableTrade {S : Type} (helpers : HandlerHelpers) (keeper : TradeKeeper S)
    (store : S) (msg : MsgDisableTrade) : DisableTradeResult S :=
  match helpers.ValidateBasic msg with
  | some err => ⟨none, some (helpers.errInternal err), store, []⟩
  | none =>
    match keeper.GetTrade store msg.TradeID with
    | .error err => ⟨none, some (helpers.errInternal err), store, []⟩
    | .ok trade =>
      if !msg.Sender.Equals trade.Sender then
        ⟨none, some (.wrap ErrUnauthorized "Trade initiator is not the same as sender"),
          store, []⟩
      else if trade.Completed && (trade.FulFiller.bytes != none) then
        ⟨none, some (helpers.errInternal (.plain "Cannot disable a completed trade")),
          store, []⟩
      else
        let trade : Trade := { trade with Disabled := true }
        match keeper.UpdateTrade store msg.TradeID trade with
        | (some err, store1) =>
          ⟨none, some (helpers.errInternal err), store1, [(msg.TradeID, trade)]⟩
        | (none, store1) =>
          ⟨(helpers.marshalJSON ⟨"successfully disabled the trade", "Success"⟩).1,
            (helpers.marshalJSON ⟨"successfully disabled the trade", "Success"⟩).2,
            store1, [(msg.TradeID, trade)]⟩

/-! ## Auxiliary notions used in the statements -/

/-- A candidate identifier satisfies a slot: it resolves in the item store, the environment
for its item is built without error, and `Match` returns `nil`. -/
def satisfies {F : Type} (ops : Float64Ops F) (k : Keeper F) (recipe : Recipe)
    (slot : ItemInput) (id : String) : Bool :=
  match k.GetItem recipe.CookbookID recipe.ID id with
  | none => false
  | some item =>
    match k.EnvCollection recipe.ID "" item with
    | .error _ => false
    | .ok ec => (Match ops item slot ec).isNone

/-- The cache invariant of `MatchItemInputs`: every entry of `inputItemMap` is what the item
store holds for that identifier. -/
def CacheFromStore {F : Type} (k : Keeper F) (recipe : Recipe) (st : MatchState) : Prop :=
  ∀ id item, st.inputItemMap.lookup id = some item →
    k.GetItem recipe.CookbookID recipe.ID id = some item

/-- A call `MatchItemInputs` may make for a recipe and a list of submitted identifiers: a
lookup of a submitted identifier in the item store, under the cookbook and recipe of the
call, or the construction of the environment of an item the store holds for a submitted
identifier. -/
def MatchCall {F : Type} (k : Keeper F) (recipe : Recipe) (ids : List String)
    (c : Call) : Prop :=
  (∃ id ∈ ids, c = Call.GetItem recipe.CookbookID recipe.ID id) ∨
  (∃ id ∈ ids, ∃ item, k.GetItem recipe.CookbookID recipe.ID id = some item ∧
    c = Call.EnvCollection recipe.ID "" item)

/-- The calls made so far are calls `MatchItemInputs` may make, and no identifier was looked
up in the store twice. -/
def LookedUpOnce {F : Type} (k : Keeper F) (recipe : Recipe) (ids : List String)
    (calls : List Call) : Prop :=
  (∀ c ∈ calls, MatchCall k recipe ids c) ∧
  ∀ id, calls.count (Call.GetItem recipe.CookbookID recipe.ID id) ≤ 1

/-- The invariant of the two loops of `MatchItemInputs` on the cache and the calls: the
cache holds store items, and an identifier that is not in the cache was never looked up. -/
def CacheInv {F : Type} (k : Keeper F) (recipe : Recipe) (ids : List String)
    (inputItemMap : List (String × Item)) (calls : List Call) : Prop :=
  LookedUpOnce k recipe ids calls ∧
  (∀ id item, inputItemMap.lookup id = some item →
    k.GetItem recipe.CookbookID recipe.ID id = some item) ∧
  ∀ id, inputItemMap.lookup id = none →
    calls.count (Call.GetItem recipe.CookbookID recipe.ID id) = 0

/-! ## The conversion of a float to `sdk.Dec`

The library calls behind `sdk.NewDecFromStr(fmt.Sprintf("%v", f))`, for floats that are
whole numbers. -/

/-- The digits of a whole float without its trailing zeros. -/
def shortestDigits (digits : List Char) : List Char :=
  (digits.reverse.dropWhile (fun c => c == '0')).reverse

/-- The library call `fmt.Sprintf("%v", f)` for a float `f` that is a whole number: the
shortest digits, in plain form below `1e6` in magnitude (`500`) and in exponent form from
there on (`2e+06`, `1.234567e+06`, `1e+21`). -/
def sprintV (f : Int) : String :=
  let sign := if f < 0 then "-" else ""
  let digits := (toString f.natAbs).data
  if f.natAbs < 1000000 then sign ++ String.mk digits
  else
    match shortestDigits digits with
    | [] => sign ++ String.mk digits
    | first :: more =>
      let mantissa := if more.isEmpty then [first] else first :: '.' :: more
      let exponent := digits.length - 1
      sign ++ String.mk mantissa ++ "e+" ++ (if exponent < 10 then "0" else "") ++
        toString exponent

/-- The library call `strings.Split(s, ".")` on the characters of `s`. -/
def splitAtDots : List Char → List (List Char)
  | [] => [[]]
  | c :: cs =>
    if c = '.' then [] :: splitAtDots cs
    else
      match splitAtDots cs with
      | [] => [[c]]
      | part :: parts => (c :: part) :: parts

/-- The value of a string of decimal digits, `none` when a character is not a digit. -/
def digitsValue : Nat → List Char → Option Nat
  | acc, [] => some acc
  | acc, c :: cs =>
    if c.isDigit then digitsValue (acc * 10 + (c.toNat - 48)) cs else none

/-- The library call `new(big.Int).SetString(s, 10)`: an optional sign and at least one
decimal digit, nothing else. -/
def setString (s : List Char) : Option Int :=
  match s with
  | [] => none
  | '-' :: ds => if ds.isEmpty then none else (digitsValue 0 ds).map (fun n => -(n : Int))
  | '+' :: ds => if ds.isEmpty then none else (digitsValue 0 ds).map (fun n => (n : Int))
  | ds => (digitsValue 0 ds).map (fun n => (n : Int))

/-- The library function `sdk.NewDecFromStr`, with its precision of eighteen decimals: the
sign is taken off, the string is split at the dots, the decimals are padded with zeros to
eighteen, and the digits are read as one integer. The bound on the bit length of the result
is left out. -/
def NewDecFromStr (str : String) : Except GoError Dec :=
  if str.data.isEmpty then .error (.plain "decimal string cannot be empty")
  else
    let neg := str.data.head? == some '-'
    let s := if neg then str.data.tail else str.data
    if s.isEmpty then .error (.plain "decimal string cannot be empty")
    else
      match splitAtDots s with
      | [whole] =>
        let combinedStr := whole ++ List.replicate 18 '0'
        match setString combinedStr with
        | none => .error (.plain ("failed to set decimal string: " ++ String.mk combinedStr))
        | some combined => .ok ⟨if neg then -combined else combined⟩
      | [whole, decimals] =>
        if decimals.isEmpty || whole.isEmpty then .error (.plain "invalid decimal length")
        else if decimals.length > 18 then
          .error (.plain ("invalid precision; max: 18, got: " ++ toString decimals.length))
        else
          let combinedStr := whole ++ decimals ++ List.replicate (18 - decimals.length) '0'
          match setString combinedStr with
          | none => .error (.plain ("failed to set decimal string: " ++ String.mk combinedStr))
          | some combined => .ok ⟨if neg then -combined else combined⟩
      | _ => .error (.plain "invalid decimal string")

/-! ## Concrete inputs

The scenario of the specification: slot A requires the string field `Name = "sword"`, slot B
requires the long field `HP` in `[100, 200]`; `item1` is a sword, `item2` has `HP = 150`. A
third item, `item3`, is a second sword. Floats are whole numbers here. -/

/-- Float operations of the concrete inputs: a float is a whole number, and its conversion
to `sdk.Dec` is the one of the code, `sdk.NewDecFromStr(fmt.Sprintf("%v", f))`. -/
def wholeOps : Float64Ops Int :=
  { NewDecFromStr := fun f => NewDecFromStr (sprintV f)
    ToFloatString := fun f => toString f }

/-- An environment that knows the programs `"500"` and `"500.00"` and nothing else. -/
def constEnv : CelEnvCollection Int :=
  { EvalFloat64 := fun program =>
      if program = "500.00" then .ok 500 else .error (.plain "undeclared reference")
    EvalInt64 := fun program =>
      if program = "500" then .ok 500 else .error (.plain "undeclared reference")
    EvalString := fun _ => .error (.plain "undeclared reference") }

def item1 : Item := ⟨"item1", [], [], [("Name", "sword")]⟩

def item2 : Item := ⟨"item2", [], [("HP", 150)], []⟩

def item3 : Item := ⟨"item3", [], [], [("Name", "sword")]⟩

/-- An item store holding `item1`, `item2` and `item3`, for every cookbook and recipe. -/
def swordKeeper : Keeper Int :=
  { GetItem := fun _ _ id =>
      if id = "item1" then some item1
      else if id = "item2" then some item2
      else if id = "item3" then some item3
      else none
    EnvCollection := fun _ _ _ => .ok constEnv }

def slotA : ItemInput := ⟨[], [], [⟨"Name", "sword"⟩], ⟨[], [], []⟩⟩

def slotB : ItemInput := ⟨[], [⟨"HP", 100, 200⟩], [], ⟨[], [], []⟩⟩

/-- The two-slot recipe of the scenario. -/
def swordRecipe : Recipe := ⟨"cookbook", "recipe", [slotA, slotB]⟩

/-- A one-slot recipe asking for a sword. -/
def oneSwordRecipe : Recipe := ⟨"cookbook", "recipe", [slotA]⟩

/-- A two-slot recipe asking for two swords. -/
def twoSwordsRecipe : Recipe := ⟨"cookbook", "recipe", [slotA, slotA]⟩

/-- A sampler that draws the lower bound of the first range and fails on an empty table; the
random source is a counter of the draws. -/
def lowSampler : Sampler Int Nat :=
  { GenerateLong := fun table rand =>
      match table.WeightRanges with
      | [] => (.error (.plain "cannot sample"), rand + 1)
      | range :: _ => (.ok range.Lower, rand + 1)
    GenerateDouble := fun table rand =>
      match table.WeightRanges with
      | [] => (.error (.plain "cannot sample"), rand + 1)
      | range :: _ => (.ok range.Lower.raw, rand + 1) }

/-- A long parameter with both a program and a weight table. -/
def hpParam : LongParam := ⟨"HP", "500", ⟨[⟨100, 500, 6⟩, ⟨501, 800, 2⟩]⟩⟩

/-- A double parameter with both a program and a weight table. -/
def enduranceParam : DoubleParam := ⟨"endurance", "500.00", ⟨[⟨⟨100⟩, ⟨500⟩, 6⟩]⟩⟩

/-- Two long parameters: `HP`, and `XP` with a program the environment cannot evaluate. -/
def hpThenXp : LongParamList :=
  ⟨[hpParam, ⟨"XP", "level * 2", ⟨[]⟩⟩]⟩

/-- Two double parameters: `endurance`, and `weight` with neither a program nor a weight
range. -/
def enduranceThenWeight : DoubleParamList :=
  ⟨[enduranceParam, ⟨"weight", "", ⟨[]⟩⟩]⟩

/-- A long parameter without a program. -/
def levelParam : LongParam := ⟨"level", "", ⟨[⟨1, 1, 1⟩]⟩⟩

/-- A double parameter without a program. -/
def massParam : DoubleParam := ⟨"mass", "", ⟨[⟨⟨3⟩, ⟨3⟩, 1⟩]⟩⟩

/-- Two long parameters that actualize: `HP` from its program, `level` from its table. -/
def hpThenLevel : LongParamList :=
  ⟨[hpParam, levelParam]⟩

/-- Two double parameters that actualize: `endurance` from its program, `mass` from its
table. -/
def enduranceThenMass : DoubleParamList :=
  ⟨[enduranceParam, massParam]⟩

/-- A slot asking for a sword whose expression `500` lies in `[0, 1000]`. -/
def conditionSlot : ItemInput := ⟨[], [], [⟨"Name", "sword"⟩], ⟨[], [⟨"500", 0, 1000⟩], []⟩⟩

/-- The float operations `wholeOps`, under the name the inputs with large floats use: the
conversion to `sdk.Dec` succeeds below `1e6` in magnitude and fails from there on, where
`%v` writes an exponent. -/
def exponentOps : Float64Ops Int := wholeOps

/-- An environment that evaluates the program `1e21` and nothing else. -/
def bigEnv : CelEnvCollection Int :=
  { EvalFloat64 := fun program =>
      if program = "1e21" then .ok 1000000000000000000000
      else .error (.plain "undeclared reference")
    EvalInt64 := fun _ => .error (.plain "undeclared reference")
    EvalString := fun _ => .error (.plain "undeclared reference") }

/-- A slot whose only check is the double condition `1e21` in `[0, 10]`. -/
def atMostTen : ItemInput :=
  ⟨[], [], [], ⟨[⟨"1e21", ⟨0⟩, ⟨10000000000000000000⟩⟩], [], []⟩⟩

/-- A message server over `swordKeeper` that knows the one-sword recipe; the pending
executions are a list, and the identifier of a new one is its position. -/
def swordServer : MsgServer Int (List Execution) :=
  { keeper := swordKeeper
    GetRecipe := fun cookbookID recipeID =>
      if cookbookID = "cookbook" ∧ recipeID = "recipe" then some oneSwordRecipe else none
    AppendPendingExecution := fun pending execution =>
      (toString pending.length, pending ++ [execution])
    BlockHeight := 42
    GetNodeVersionString := "0.0.1" }

/-- A message submitting `item1` to the one-sword recipe. -/
def swordMsg : MsgExecuteRecipe := ⟨"alice", "cookbook", "recipe", ["item1"]⟩

/-- A message submitting `item2`, which is no sword, to the one-sword recipe. -/
def hpMsg : MsgExecuteRecipe := ⟨"alice", "cookbook", "recipe", ["item2"]⟩

def alice : AccAddress := ⟨some [1]⟩

def bob : AccAddress := ⟨some [2]⟩

/-- A trade keeper over an association list of trades. -/
def listKeeper : TradeKeeper (List (String × Trade)) :=
  { GetTrade := fun trades id =>
      match trades.lookup id with
      | some trade => .ok trade
      | none => .error (.plain "trade not found")
    UpdateTrade := fun trades id trade => (none, (id, trade) :: trades) }

/-- Helpers of the handler: a message is valid when it has a sender. -/
def plainHelpers : HandlerHelpers :=
  { ValidateBasic := fun msg =>
      if msg.Sender.bytes.getD [] = [] then some (.plain "invalid address") else none
    errInternal := fun err => .wrap (.registered "internal") err.Error
    marshalJSON := fun response => (some ⟨response.Message⟩, none) }

/-- A completed trade of `alice` that `bob` fulfilled. -/
def fulfilledTrade : Trade := ⟨alice, bob, false, true⟩

/-- A trade of `alice` marked completed that has no fulfiller. -/
def completedNoFulfiller : Trade := ⟨alice, ⟨none⟩, false, true⟩

/-- An open trade of `alice`. -/
def openTrade : Trade := ⟨alice, ⟨none⟩, false, false⟩

/-- A trade store holding the three trades. -/
def tradeStore : List (String × Trade) :=
  [("fulfilled", fulfilledTrade), ("completed", completedNoFulfiller), ("open", openTrade)]

/-! # Theorems -/

/-! ## `Match`: success criterion -/

theorem matchSlots_items_of_err {F : Type} (ops : Float64Ops F) (k : Keeper F)
    (ids : List String) (recipe : Recipe) (slots : List ItemInput) :
    ∀ (i : Nat) (st : MatchState),
      (matchSlots ops k ids recipe i slots st).err ≠ none →
        (matchSlots ops k ids recipe i slots st).items = [] := by
  induction slots with
  | nil => intro i st h; simp [matchSlots] at h
  | cons slot rest ih =>
    intro i st h
    unfold matchSlots at h ⊢
    cases hs : scanCandidates ops k recipe i slot 0 ids st none with
    | returned e calls => simp
    | finished st1 err =>
      cases err with
      | some e => simp
      | none =>
        rw [hs] at h
        exact ih (i + 1) st1 h

theorem CacheFromStore.insert {F : Type} {k : Keeper F} {recipe : Recipe} {st : MatchState}
    (h : CacheFromStore k recipe st) {id : String} {item : Item}
    (hid : k.GetItem recipe.CookbookID recipe.ID id = some item) (calls : List Call) :
    CacheFromStore k recipe
      { st with inputItemMap := (id, item) :: st.inputItemMap, calls := calls } := by
  intro id1 item1 hl
  simp only [List.lookup_cons] at hl
  by_cases hh : id1 = id
  · subst hh; simp at hl; subst hl; exact hid
  · have : (id1 == id) = false := by simpa using hh
    rw [this] at hl
    exact h id1 item1 hl

theorem scanCandidates_finished_none {F : Type} (ops : Float64Ops F) (k : Keeper F)
    (recipe : Recipe) (i : Nat) (slot : ItemInput) (ids : List String) :
    ∀ (j : Nat) (st st1 : MatchState), CacheFromStore k recipe st →
      scanCandidates ops k recipe i slot j ids st none = .finished st1 none →
      st1.matchedItems = st.matchedItems ∧ st1.checkedInputItems = st.checkedInputItems ∧
      CacheFromStore k recipe st1 ∧
      ∀ p id, ids[p]? = some id → st.checkedInputItems.getD (j + p) false = false →
        satisfies ops k recipe slot id = true := by
  induction ids with
  | nil =>
    intro j st st1 hc h
    simp only [scanCandidates, Scan.finished.injEq, and_true] at h
    subst h
    simp [hc]
  | cons id rest ih =>
    intro j st st1 hc h
    unfold scanCandidates at h
    by_cases hchk : st.checkedInputItems.getD j false = true
    · simp only [hchk, if_true] at h
      obtain ⟨h1, h2, h3, h4⟩ := ih (j + 1) st st1 hc h
      refine ⟨h1, h2, h3, ?_⟩
      intro p id1 hp hu
      cases p with
      | zero => exact absurd (hchk.symm.trans hu) (by decide)
      | succ p =>
        simp only [List.getElem?_cons_succ] at hp
        exact h4 p id1 hp (by rw [← hu]; congr 1; omega)
    · simp only [hchk] at h
      -- resolve the item
      have key : ∀ (item : Item) (calls : List Call),
          k.GetItem recipe.CookbookID recipe.ID id = some item →
          (match k.EnvCollection recipe.ID "" item with
            | .error err => Scan.returned (.wrap ErrInvalidRequest err.Error)
                (calls ++ [Call.EnvCollection recipe.ID "" item])
            | .ok ec =>
              match Match ops item slot ec with
              | some err =>
                Scan.finished
                  { matchedItems := st.matchedItems.set i item
                    inputItemMap := (id, item) :: st.inputItemMap
                    checkedInputItems := st.checkedInputItems.set j true
                    calls := calls ++ [Call.EnvCollection recipe.ID "" item] }
                  (some err)
              | none =>
                scanCandidates ops k recipe i slot (j + 1) rest
                  { st with inputItemMap := (id, item) :: st.inputItemMap,
                            calls := calls ++ [Call.EnvCollection recipe.ID "" item] }
                  none) = .finished st1 none →
          st1.matchedItems = st.matchedItems ∧ st1.checkedInputItems = st.checkedInputItems ∧
          CacheFromStore k recipe st1 ∧
          ∀ p id1, (id :: rest)[p]? = some id1 →
            st.checkedInputItems.getD (j + p) false = false →
            satisfies ops k recipe slot id1 = true := by
        intro item calls hget h
        cases hec : k.EnvCollection recipe.ID "" item with
        | error e => simp [hec] at h
        | ok ec =>
          simp only [hec] at h
          cases hm : Match ops item slot ec with
          | some e => simp [hm] at h
          | none =>
            simp only [hm] at h
            obtain ⟨h1, h2, h3, h4⟩ := ih (j + 1) _ st1 (hc.insert hget _) h
            refine ⟨h1, h2, h3, ?_⟩
            intro p id1 hp hu
            cases p with
            | zero =>
              simp only [List.getElem?_cons_zero, Option.some.injEq] at hp
              subst hp
              simp [satisfies, hget, hec, hm]
            | succ p =>
              simp only [List.getElem?_cons_succ] at hp
              exact h4 p id1 hp (by rw [← hu]; simp only []; congr 1; omega)
      cases hl : st.inputItemMap.lookup id with
      | some item =>
        simp only [hl] at h
        exact key item st.calls (hc id item hl) h
      | none =>
        simp only [hl] at h
        cases hg : k.GetItem recipe.CookbookID recipe.ID id with
        | none => simp [hg] at h
        | some item =>
          simp only [hg] at h
          exact key item _ hg h



theorem matchSlots_ok {F : Type} (ops : Float64Ops F) (k : Keeper F)
    (ids : List String) (recipe : Recipe) (slots : List ItemInput) :
    ∀ (i : Nat) (st : MatchState), CacheFromStore k recipe st →
      (∀ j, st.checkedInputItems.getD j false = false) →
      (matchSlots ops k ids recipe i slots st).err = none →
      (matchSlots ops k ids recipe i slots st).items = st.matchedItems ∧
      ∀ slot ∈ slots, ∀ id ∈ ids, satisfies ops k recipe slot id = true := by
  induction slots with
  | nil => intro i st _ _ _; simp [matchSlots]
  | cons slot rest ih =>
    intro i st hc hchk h
    unfold matchSlots at h ⊢
    cases hs : scanCandidates ops k recipe i slot 0 ids st none with
    | returned e calls => simp [hs] at h
    | finished st1 err =>
      cases err with
      | some e => simp [hs] at h
      | none =>
        simp only [hs] at h ⊢
        obtain ⟨h1, h2, h3, h4⟩ := scanCandidates_finished_none ops k recipe i slot ids 0 st st1 hc hs
        obtain ⟨g1, g2⟩ := ih (i + 1) st1 h3 (by rw [h2]; exact hchk) h
        refine ⟨g1.trans h1, ?_⟩
        intro slot1 hslot1 id hid
        rcases List.mem_cons.1 hslot1 with rfl | hr
        · obtain ⟨p, hp⟩ := List.getElem?_of_mem hid
          exact h4 p id hp (hchk _)
        · exact g2 slot1 hr id hid

/-- Every successful call of `MatchItemInputs` has as many identifiers as slots, returns the
slice `matchedItems` as `make` left it, and has seen every submitted candidate satisfy every
slot. -/
theorem MatchItemInputs_ok {F : Type} (ops : Float64Ops F) (k : Keeper F)
    (ids : List String) (recipe : Recipe)
    (h : (MatchItemInputs ops k ids recipe).err = none) :
    ids.length = recipe.ItemInputs.length ∧
    (MatchItemInputs ops k ids recipe).items =
      List.replicate recipe.ItemInputs.length Item.zero ∧
    ∀ slot ∈ recipe.ItemInputs, ∀ id ∈ ids, satisfies ops k recipe slot id = true := by
  unfold MatchItemInputs at h ⊢
  by_cases hlen : ids.length = recipe.ItemInputs.length
  · simp only [hlen, ne_eq, not_true_eq_false, if_false] at h ⊢
    have := matchSlots_ok ops k ids recipe recipe.ItemInputs 0
      { matchedItems := List.replicate recipe.ItemInputs.length Item.zero
        inputItemMap := []
        checkedInputItems := List.replicate recipe.ItemInputs.length false
        calls := [] }
      (by intro id item hl; simp at hl)
      (by
        intro j
        simp only [List.getD_eq_getElem?_getD, List.getElem?_replicate]
        split <;> rfl)
      h
    exact ⟨trivial, this.1, this.2⟩
  · simp [hlen] at h

/-- Among the positions of a list, one lies outside any shorter list of positions. -/
theorem exists_position_not_mem (n : Nat) (bound : List Nat) (h : bound.length < n) :
    ∃ j, j < n ∧ j ∉ bound := by
  by_contra hcon
  push_neg at hcon
  have hsub : List.range n ⊆ bound := by
    intro j hj
    exact hcon j (List.mem_range.1 hj)
  have := ((List.nodup_range n).subperm hsub).length_le
  simp at this
  omega

/-! ## `MatchItemInputs`: the claims -/

/-- C1 (first-fit), evaluated on the code. One slot asks for a sword and the single submitted
identifier `item1` is a sword, so first-fit returns `[item1]`. The call succeeds, but the item
it returns for the slot is the zero value `Item{}` and not the store item of `item1`: line 124
binds a candidate when `Match` fails (`err != nil`) instead of when it succeeds. -/
theorem MatchItemInputs_first_fit_diverges :
    satisfies wholeOps swordKeeper oneSwordRecipe slotA "item1" = true ∧
    swordKeeper.GetItem "cookbook" "recipe" "item1" = some item1 ∧
    MatchItemInputs wholeOps swordKeeper ["item1"] oneSwordRecipe =
      ⟨[Item.zero], none,
        [.GetItem "cookbook" "recipe" "item1", .EnvCollection "recipe" "" item1]⟩ ∧
    (MatchItemInputs wholeOps swordKeeper ["item1"] oneSwordRecipe).items ≠ [item1] := by
  decide

/-- C2 (exclusivity), evaluated on the code. Two slots ask for a sword and the two submitted
identifiers are two swords. The call succeeds and returns `[Item{}, Item{}]`; no assignment of
slots to submitted positions, injective or not, makes the returned items the store items of
the submitted identifiers. -/
theorem MatchItemInputs_exclusivity_diverges :
    (MatchItemInputs wholeOps swordKeeper ["item1", "item3"] twoSwordsRecipe).err = none ∧
    (MatchItemInputs wholeOps swordKeeper ["item1", "item3"] twoSwordsRecipe).items =
      [Item.zero, Item.zero] ∧
    ¬ ∃ assign : Fin 2 → Fin 2, ∀ i : Fin 2,
        swordKeeper.GetItem "cookbook" "recipe" (["item1", "item3"].get (assign i)) =
          (MatchItemInputs wholeOps swordKeeper ["item1", "item3"] twoSwordsRecipe).items[i.val]? := by
  decide

/-- C3 (local recovery), evaluated on the code. In the scenario of the specification,
submitting `[item2, item1]` does not return `[item1, item2]`: `item2` fails slot A, is bound
to slot A by line 124, and the call returns `nil` with the "cannot find match" error after
one store lookup. -/
theorem MatchItemInputs_scenario_diverges :
    Match wholeOps item2 slotA constEnv ≠ none ∧
    satisfies wholeOps swordKeeper swordRecipe slotA "item1" = true ∧
    satisfies wholeOps swordKeeper swordRecipe slotB "item2" = true ∧
    MatchItemInputs wholeOps swordKeeper ["item2", "item1"] swordRecipe =
      ⟨[], some (.wrap ErrInvalidRequest "cannot find match for recipe input item "),
        [.GetItem "cookbook" "recipe" "item2", .EnvCollection "recipe" "" item2]⟩ := by
  decide

/-- C5. When the number of submitted identifiers differs from the number of slots,
`MatchItemInputs` returns `nil` and the size-mismatch error, and has made no call: no item
was looked up in the store and no environment was built. -/
theorem MatchItemInputs_size_mismatch {F : Type} (ops : Float64Ops F) (k : Keeper F)
    (inputItemsIDs : List String) (recipe : Recipe)
    (h : inputItemsIDs.length ≠ recipe.ItemInputs.length) :
    MatchItemInputs ops k inputItemsIDs recipe =
      ⟨[], some (.wrap ErrInvalidRequest
        "size mismatch between provided input items and items required by recipe"), []⟩ := by
  unfold MatchItemInputs
  rw [if_pos h]

theorem MatchItemInputs_size_mismatch_witness :
    ["item1"].length ≠ swordRecipe.ItemInputs.length ∧
    MatchItemInputs wholeOps swordKeeper ["item1"] swordRecipe =
      ⟨[], some (.wrap ErrInvalidRequest
        "size mismatch between provided input items and items required by recipe"), []⟩ :=
  ⟨by decide, MatchItemInputs_size_mismatch wholeOps swordKeeper ["item1"] swordRecipe (by decide)⟩

/-- C6. If, for some slot `i`, no candidate outside the positions `bound` satisfies the slot,
where `bound` holds the positions bound to earlier slots (at most one for each of the `i`
earlier slots), then `MatchItemInputs` returns an error. This holds whatever the positions in
`bound` are, in particular with all identifiers resolving in the store and as many
identifiers as slots. -/
theorem MatchItemInputs_fails_of_unsatisfied_slot {F : Type} (ops : Float64Ops F)
    (k : Keeper F) (inputItemsIDs : List String) (recipe : Recipe)
    (i : Nat) (slot : ItemInput) (bound : List Nat)
    (hslot : recipe.ItemInputs[i]? = some slot)
    (hbound : bound.length ≤ i)
    (hfail : ∀ j id, inputItemsIDs[j]? = some id → j ∉ bound →
      satisfies ops k recipe slot id = false) :
    (MatchItemInputs ops k inputItemsIDs recipe).err ≠ none := by
  intro hok
  obtain ⟨hlen, -, hall⟩ := MatchItemInputs_ok ops k inputItemsIDs recipe hok
  have hi : i < recipe.ItemInputs.length := by
    by_contra hge
    rw [List.getElem?_eq_none (Nat.le_of_not_lt hge)] at hslot
    cases hslot
  obtain ⟨j, hj, hjb⟩ := exists_position_not_mem inputItemsIDs.length bound (by omega)
  have hget : inputItemsIDs[j]? = some inputItemsIDs[j] := List.getElem?_eq_getElem hj
  have h1 := hfail j _ hget hjb
  have h2 := hall slot (List.getElem?_mem hslot) _ (List.getElem_mem hj)
  rw [h1] at h2
  cases h2

theorem MatchItemInputs_fails_of_unsatisfied_slot_witness :
    swordRecipe.ItemInputs[1]? = some slotB ∧ [0].length ≤ 1 ∧
    (∀ j id, ["item1", "item3"][j]? = some id → j ∉ [0] →
      satisfies wholeOps swordKeeper swordRecipe slotB id = false) ∧
    (MatchItemInputs wholeOps swordKeeper ["item1", "item3"] swordRecipe).err ≠ none :=
  have hfail : ∀ j id, ["item1", "item3"][j]? = some id → j ∉ [0] →
      satisfies wholeOps swordKeeper swordRecipe slotB id = false := by
    intro j id hj hb
    match j, hj, hb with
    | 0, _, hb => exact absurd (List.mem_singleton.2 rfl) hb
    | 1, hj, _ =>
      simp only [List.getElem?_cons_succ, List.getElem?_cons_zero, Option.some.injEq] at hj
      subst hj
      decide
    | j + 2, hj, _ => simp at hj
  ⟨by decide, by decide, hfail,
    MatchItemInputs_fails_of_unsatisfied_slot wholeOps swordKeeper ["item1", "item3"] swordRecipe
      1 slotB [0] (by decide) (by decide) hfail⟩

/-- C7. Whenever `MatchItemInputs` returns an error, whichever of its four error returns it
takes, the item list it returns is `nil`: nothing bound to earlier slots is handed back. -/
theorem MatchItemInputs_err_items_nil {F : Type} (ops : Float64Ops F) (k : Keeper F)
    (inputItemsIDs : List String) (recipe : Recipe)
    (h : (MatchItemInputs ops k inputItemsIDs recipe).err ≠ none) :
    (MatchItemInputs ops k inputItemsIDs recipe).items = [] := by
  unfold MatchItemInputs at h ⊢
  by_cases hlen : inputItemsIDs.length = recipe.ItemInputs.length
  · simp only [hlen, ne_eq, not_true_eq_false, if_false] at h ⊢
    exact matchSlots_items_of_err ops k inputItemsIDs recipe recipe.ItemInputs 0 _ h
  · simp [hlen]

theorem MatchItemInputs_err_items_nil_witness :
    (MatchItemInputs wholeOps swordKeeper ["item1", "item3"] swordRecipe).err ≠ none ∧
    (MatchItemInputs wholeOps swordKeeper ["item1", "item3"] swordRecipe).items = [] :=
  ⟨by decide,
    MatchItemInputs_err_items_nil wholeOps swordKeeper ["item1", "item3"] swordRecipe (by decide)⟩

/-! ## `Actualize` -/

theorem longParamValue_of_program {F R : Type} (ec : CelEnvCollection F) (sampler : Sampler F R)
    (param : LongParam) (rand : R) (calls : List Call) (h : param.Program.length > 0) :
    longParamValue ec sampler param rand calls =
      (ec.EvalInt64 param.Program, rand, calls ++ [Call.EvalInt64 param.Program]) := by
  unfold longParamValue
  rw [if_pos h]

theorem longParamValue_calls {F R : Type} (ec : CelEnvCollection F) (sampler : Sampler F R)
    (param : LongParam) (rand : R) (calls : List Call) :
    ∃ c, (longParamValue ec sampler param rand calls).2.2 = calls ++ [c] := by
  unfold longParamValue
  split
  · exact ⟨_, rfl⟩
  · exact ⟨_, rfl⟩

theorem doubleParamValue_of_program {F R : Type} (ec : CelEnvCollection F)
    (sampler : Sampler F R) (param : DoubleParam) (rand : R) (calls : List Call)
    (h : param.Program.length > 0) :
    doubleParamValue ec sampler param rand calls =
      (ec.EvalFloat64 param.Program, rand, calls ++ [Call.EvalFloat64 param.Program]) := by
  unfold doubleParamValue
  rw [if_pos h]

theorem doubleParamValue_calls {F R : Type} (ec : CelEnvCollection F) (sampler : Sampler F R)
    (param : DoubleParam) (rand : R) (calls : List Call) :
    ∃ c, (doubleParamValue ec sampler param rand calls).2.2 = calls ++ [c] := by
  unfold doubleParamValue
  split
  · exact ⟨_, rfl⟩
  · exact ⟨_, rfl⟩

/-- A successful run of the loop of `LongParamList.Actualize` appends one entry and makes one
call for each parameter, in order. -/
theorem actualizeLongs_ok {F R : Type} (ec : CelEnvCollection F) (sampler : Sampler F R)
    (ps : List LongParam) :
    ∀ (m : List LongKeyValue) (rand : R) (calls : List Call),
      (actualizeLongs ec sampler ps m rand calls).err = none →
      ∃ out cs, (actualizeLongs ec sampler ps m rand calls).m = m ++ out ∧
        (actualizeLongs ec sampler ps m rand calls).calls = calls ++ cs ∧
        out.map (fun kv => kv.Key) = ps.map (fun param => param.Key) ∧
        cs.length = ps.length ∧
        ∀ (i : Nat) (param : LongParam), ps[i]? = some param → param.Program.length > 0 →
          ∃ val, ec.EvalInt64 param.Program = .ok val ∧
            out[i]? = some (LongKeyValue.mk param.Key val) ∧ cs[i]? = some (Call.EvalInt64 param.Program) := by
  induction ps with
  | nil =>
    intro m rand calls _
    exact ⟨[], [], by simp [actualizeLongs], by simp [actualizeLongs], rfl, rfl, by simp⟩
  | cons p rest ih =>
    intro m rand calls h
    unfold actualizeLongs at h ⊢
    obtain ⟨c, hc⟩ := longParamValue_calls ec sampler p rand calls
    cases hv : longParamValue ec sampler p rand calls with
    | mk r rc =>
      obtain ⟨rand1, calls1⟩ := rc
      rw [hv] at hc
      simp only at hc
      subst hc
      cases r with
      | error e => simp [hv] at h
      | ok val =>
        simp only [hv] at h ⊢
        obtain ⟨out, cs, h1, h2, h3, h4, h5⟩ := ih _ _ _ h
        refine ⟨⟨p.Key, val⟩ :: out, c :: cs, by simp [h1], by simp [h2], by simp [h3],
          by simp [h4], ?_⟩
        intro i param hi hprog
        cases i with
        | zero =>
          simp only [List.getElem?_cons_zero, Option.some.injEq] at hi
          subst hi
          rw [longParamValue_of_program ec sampler p rand calls hprog] at hv
          simp only [Prod.mk.injEq, List.append_cancel_left_eq, List.cons.injEq, and_true] at hv
          exact ⟨val, hv.1, by simp, by simp [hv.2.2]⟩
        | succ i =>
          simp only [List.getElem?_cons_succ] at hi ⊢
          exact h5 i param hi hprog

/-- A successful run of the loop of `DoubleParamList.Actualize` appends one entry and makes
one call for each parameter, in order. -/
theorem actualizeDoubles_ok {F R : Type} (ops : Float64Ops F) (ec : CelEnvCollection F)
    (sampler : Sampler F R) (ps : List DoubleParam) :
    ∀ (m : List DoubleKeyValue) (rand : R) (calls : List Call),
      (actualizeDoubles ops ec sampler ps m rand calls).err = none →
      ∃ out cs, (actualizeDoubles ops ec sampler ps m rand calls).m = m ++ out ∧
        (actualizeDoubles ops ec sampler ps m rand calls).calls = calls ++ cs ∧
        out.map (fun kv => kv.Key) = ps.map (fun param => param.Key) ∧
        cs.length = ps.length ∧
        ∀ (i : Nat) (param : DoubleParam), ps[i]? = some param → param.Program.length > 0 →
          ∃ val, ec.EvalFloat64 param.Program = .ok val ∧
            out[i]? = some (DoubleKeyValue.mk param.Key (ops.ToFloatString val)) ∧
            cs[i]? = some (Call.EvalFloat64 param.Program) := by
  induction ps with
  | nil =>
    intro m rand calls _
    exact ⟨[], [], by simp [actualizeDoubles], by simp [actualizeDoubles], rfl, rfl, by simp⟩
  | cons p rest ih =>
    intro m rand calls h
    unfold actualizeDoubles at h ⊢
    obtain ⟨c, hc⟩ := doubleParamValue_calls ec sampler p rand calls
    cases hv : doubleParamValue ec sampler p rand calls with
    | mk r rc =>
      obtain ⟨rand1, calls1⟩ := rc
      rw [hv] at hc
      simp only at hc
      subst hc
      cases r with
      | error e => simp [hv] at h
      | ok val =>
        simp only [hv] at h ⊢
        obtain ⟨out, cs, h1, h2, h3, h4, h5⟩ := ih _ _ _ h
        refine ⟨⟨p.Key, ops.ToFloatString val⟩ :: out, c :: cs, by simp [h1], by simp [h2],
          by simp [h3], by simp [h4], ?_⟩
        intro i param hi hprog
        cases i with
        | zero =>
          simp only [List.getElem?_cons_zero, Option.some.injEq] at hi
          subst hi
          rw [doubleParamValue_of_program ec sampler p rand calls hprog] at hv
          simp only [Prod.mk.injEq, List.append_cancel_left_eq, List.cons.injEq, and_true] at hv
          exact ⟨val, hv.1, by simp, by simp [hv.2.2]⟩
        | succ i =>
          simp only [List.getElem?_cons_succ] at hi ⊢
          exact h5 i param hi hprog

/-- A failing run of the loop of `LongParamList.Actualize` returns what the run over the
parameters before the failing one returns. -/
theorem actualizeLongs_err {F R : Type} (ec : CelEnvCollection F) (sampler : Sampler F R)
    (ps : List LongParam) :
    ∀ (m : List LongKeyValue) (rand : R) (calls : List Call) (e : GoError),
      (actualizeLongs ec sampler ps m rand calls).err = some e →
      ∃ n, n < ps.length ∧
        (actualizeLongs ec sampler (ps.take n) m rand calls).err = none ∧
        (actualizeLongs ec sampler (ps.take n) m rand calls).m =
          (actualizeLongs ec sampler ps m rand calls).m ∧
        (actualizeLongs ec sampler ps m rand calls).m.length = m.length + n ∧
        (actualizeLongs ec sampler (ps.take (n + 1)) m rand calls).err = some e := by
  induction ps with
  | nil => intro m rand calls e h; simp [actualizeLongs] at h
  | cons p rest ih =>
    intro m rand calls e h
    cases hv : longParamValue ec sampler p rand calls with
    | mk r rc =>
      obtain ⟨rand1, calls1⟩ := rc
      cases r with
      | error e1 =>
        refine ⟨0, by simp, ?_⟩
        simp only [actualizeLongs, hv, List.take_zero, List.take_succ_cons] at h ⊢
        simp [h]
      | ok val =>
        simp only [actualizeLongs, hv] at h
        obtain ⟨n, h1, h2, h3, h4, h5⟩ := ih _ _ _ e h
        refine ⟨n + 1, by simp [h1], ?_⟩
        simp only [actualizeLongs, hv, List.take_succ_cons]
        refine ⟨h2, h3, ?_, h5⟩
        rw [h4]; simp; omega

/-- A failing run of the loop of `DoubleParamList.Actualize` returns what the run over the
parameters before the failing one returns. -/
theorem actualizeDoubles_err {F R : Type} (ops : Float64Ops F) (ec : CelEnvCollection F)
    (sampler : Sampler F R) (ps : List DoubleParam) :
    ∀ (m : List DoubleKeyValue) (rand : R) (calls : List Call) (e : GoError),
      (actualizeDoubles ops ec sampler ps m rand calls).err = some e →
      ∃ n, n < ps.length ∧
        (actualizeDoubles ops ec sampler (ps.take n) m rand calls).err = none ∧
        (actualizeDoubles ops ec sampler (ps.take n) m rand calls).m =
          (actualizeDoubles ops ec sampler ps m rand calls).m ∧
        (actualizeDoubles ops ec sampler ps m rand calls).m.length = m.length + n ∧
        (actualizeDoubles ops ec sampler (ps.take (n + 1)) m rand calls).err = some e := by
  induction ps with
  | nil => intro m rand calls e h; simp [actualizeDoubles] at h
  | cons p rest ih =>
    intro m rand calls e h
    cases hv : doubleParamValue ec sampler p rand calls with
    | mk r rc =>
      obtain ⟨rand1, calls1⟩ := rc
      cases r with
      | error e1 =>
        refine ⟨0, by simp, ?_⟩
        simp only [actualizeDoubles, hv, List.take_zero, List.take_succ_cons] at h ⊢
        simp [h]
      | ok val =>
        simp only [actualizeDoubles, hv] at h
        obtain ⟨n, h1, h2, h3, h4, h5⟩ := ih _ _ _ e h
        refine ⟨n + 1, by simp [h1], ?_⟩
        simp only [actualizeDoubles, hv, List.take_succ_cons]
        refine ⟨h2, h3, ?_, h5⟩
        rw [h4]; simp; omega

/-! ## `Actualize`: the claims -/

/-- C8, as stated, fails on the code. The second of two long parameters has a program the
environment cannot evaluate: `Actualize` returns the error together with the entry already
computed for the first parameter, not with an empty list. -/
theorem Actualize_err_keeps_earlier_entries :
    (hpThenXp.Actualize constEnv lowSampler 0).err = some (.plain "undeclared reference") ∧
    (hpThenXp.Actualize constEnv lowSampler 0).m = [⟨"HP", 500⟩] ∧
    (hpThenXp.Actualize constEnv lowSampler 0).m ≠ [] := by
  decide

/-- C8, amended. When evaluating or sampling some parameter fails, `Actualize` (for longs and
for doubles) returns the error together with the entries computed for the parameters before
the failing one: with `n` the position of the first failing parameter, the returned list is
the list a successful `Actualize` over the first `n` parameters returns, it has `n` entries,
and `Actualize` over the first `n + 1` parameters fails with the same error. No entry is
returned for the failing parameter or a later one. -/
theorem Actualize_err_returns_entries_before_failure {F R : Type} (ops : Float64Ops F)
    (ec : CelEnvCollection F) (sampler : Sampler F R) (rand : R)
    (lpm : LongParamList) (dpm : DoubleParamList) :
    (∀ e, (lpm.Actualize ec sampler rand).err = some e →
      ∃ n, n < lpm.Params.length ∧
        (LongParamList.Actualize ⟨lpm.Params.take n⟩ ec sampler rand).err = none ∧
        (LongParamList.Actualize ⟨lpm.Params.take n⟩ ec sampler rand).m =
          (lpm.Actualize ec sampler rand).m ∧
        (lpm.Actualize ec sampler rand).m.length = n ∧
        (LongParamList.Actualize ⟨lpm.Params.take (n + 1)⟩ ec sampler rand).err = some e) ∧
    (∀ e, (dpm.Actualize ops ec sampler rand).err = some e →
      ∃ n, n < dpm.List.length ∧
        (DoubleParamList.Actualize ⟨dpm.List.take n⟩ ops ec sampler rand).err = none ∧
        (DoubleParamList.Actualize ⟨dpm.List.take n⟩ ops ec sampler rand).m =
          (dpm.Actualize ops ec sampler rand).m ∧
        (dpm.Actualize ops ec sampler rand).m.length = n ∧
        (DoubleParamList.Actualize ⟨dpm.List.take (n + 1)⟩ ops ec sampler rand).err =
          some e) := by
  constructor
  · intro e h
    obtain ⟨n, h1, h2, h3, h4, h5⟩ := actualizeLongs_err ec sampler lpm.Params [] rand [] e h
    exact ⟨n, h1, h2, h3, by simpa using h4, h5⟩
  · intro e h
    obtain ⟨n, h1, h2, h3, h4, h5⟩ :=
      actualizeDoubles_err ops ec sampler dpm.List [] rand [] e h
    exact ⟨n, h1, h2, h3, by simpa using h4, h5⟩

theorem Actualize_err_returns_entries_before_failure_witness :
    ((hpThenXp.Actualize constEnv lowSampler 0).err = some (.plain "undeclared reference") ∧
      ∃ n, n < hpThenXp.Params.length ∧
        (LongParamList.Actualize ⟨hpThenXp.Params.take n⟩ constEnv lowSampler 0).err = none ∧
        (LongParamList.Actualize ⟨hpThenXp.Params.take n⟩ constEnv lowSampler 0).m =
          (hpThenXp.Actualize constEnv lowSampler 0).m ∧
        (hpThenXp.Actualize constEnv lowSampler 0).m.length = n ∧
        (LongParamList.Actualize ⟨hpThenXp.Params.take (n + 1)⟩ constEnv lowSampler 0).err =
          some (.plain "undeclared reference")) ∧
    ((enduranceThenWeight.Actualize wholeOps constEnv lowSampler 0).err =
        some (.plain "cannot sample") ∧
      ∃ n, n < enduranceThenWeight.List.length ∧
        (DoubleParamList.Actualize ⟨enduranceThenWeight.List.take n⟩ wholeOps constEnv
          lowSampler 0).err = none ∧
        (DoubleParamList.Actualize ⟨enduranceThenWeight.List.take n⟩ wholeOps constEnv
          lowSampler 0).m = (enduranceThenWeight.Actualize wholeOps constEnv lowSampler 0).m ∧
        (enduranceThenWeight.Actualize wholeOps constEnv lowSampler 0).m.length = n ∧
        (DoubleParamList.Actualize ⟨enduranceThenWeight.List.take (n + 1)⟩ wholeOps constEnv
          lowSampler 0).err = some (.plain "cannot sample")) :=
  ⟨⟨by decide,
      (Actualize_err_returns_entries_before_failure wholeOps constEnv lowSampler 0 hpThenXp
        enduranceThenWeight).1 _ (by decide)⟩,
    ⟨by decide,
      (Actualize_err_returns_entries_before_failure wholeOps constEnv lowSampler 0 hpThenXp
        enduranceThenWeight).2 _ (by decide)⟩⟩

/-- C9. On a successful `Actualize` (for longs and for doubles), every parameter whose
`Program` is non-empty, whatever its `WeightTable`, gets the value the environment returns
for `Program` (`EvalInt64` for a long; `EvalFloat64` rendered by `ToFloatString` for a
double). One call is made for each parameter, and the call made for such a parameter is the
evaluation of `Program`, not a `Generate`. -/
theorem Actualize_program_precedence {F R : Type} (ops : Float64Ops F)
    (ec : CelEnvCollection F) (sampler : Sampler F R) (rand : R)
    (lpm : LongParamList) (dpm : DoubleParamList) :
    ((lpm.Actualize ec sampler rand).err = none →
      (lpm.Actualize ec sampler rand).calls.length = lpm.Params.length ∧
      ∀ (i : Nat) (param : LongParam), lpm.Params[i]? = some param →
        param.Program.length > 0 →
        ∃ val, ec.EvalInt64 param.Program = .ok val ∧
          (lpm.Actualize ec sampler rand).m[i]? = some (LongKeyValue.mk param.Key val) ∧
          (lpm.Actualize ec sampler rand).calls[i]? = some (Call.EvalInt64 param.Program)) ∧
    ((dpm.Actualize ops ec sampler rand).err = none →
      (dpm.Actualize ops ec sampler rand).calls.length = dpm.List.length ∧
      ∀ (i : Nat) (param : DoubleParam), dpm.List[i]? = some param →
        param.Program.length > 0 →
        ∃ val, ec.EvalFloat64 param.Program = .ok val ∧
          (dpm.Actualize ops ec sampler rand).m[i]? =
            some (DoubleKeyValue.mk param.Key (ops.ToFloatString val)) ∧
          (dpm.Actualize ops ec sampler rand).calls[i]? =
            some (Call.EvalFloat64 param.Program)) := by
  constructor
  · intro h
    obtain ⟨out, cs, h1, h2, -, h4, h5⟩ := actualizeLongs_ok ec sampler lpm.Params [] rand [] h
    simp only [List.nil_append] at h1 h2
    unfold LongParamList.Actualize
    rw [h1, h2]
    exact ⟨h4, h5⟩
  · intro h
    obtain ⟨out, cs, h1, h2, -, h4, h5⟩ :=
      actualizeDoubles_ok ops ec sampler dpm.List [] rand [] h
    simp only [List.nil_append] at h1 h2
    unfold DoubleParamList.Actualize
    rw [h1, h2]
    exact ⟨h4, h5⟩

theorem Actualize_program_precedence_witness :
    ((hpThenLevel.Actualize constEnv lowSampler 0).err = none ∧
      hpThenLevel.Params[0]? = some hpParam ∧ hpParam.Program.length > 0 ∧
      hpParam.WeightTable.WeightRanges ≠ [] ∧
      ∃ val, constEnv.EvalInt64 hpParam.Program = .ok val ∧
        (hpThenLevel.Actualize constEnv lowSampler 0).m[0]? =
          some (LongKeyValue.mk hpParam.Key val) ∧
        (hpThenLevel.Actualize constEnv lowSampler 0).calls[0]? =
          some (Call.EvalInt64 hpParam.Program)) ∧
    ((enduranceThenMass.Actualize wholeOps constEnv lowSampler 0).err = none ∧
      enduranceThenMass.List[0]? = some enduranceParam ∧ enduranceParam.Program.length > 0 ∧
      enduranceParam.WeightTable.WeightRanges ≠ [] ∧
      ∃ val, constEnv.EvalFloat64 enduranceParam.Program = .ok val ∧
        (enduranceThenMass.Actualize wholeOps constEnv lowSampler 0).m[0]? =
          some (DoubleKeyValue.mk enduranceParam.Key (wholeOps.ToFloatString val)) ∧
        (enduranceThenMass.Actualize wholeOps constEnv lowSampler 0).calls[0]? =
          some (Call.EvalFloat64 enduranceParam.Program)) :=
  ⟨⟨by decide, by decide, by decide, by decide,
      ((Actualize_program_precedence wholeOps constEnv lowSampler 0 hpThenLevel
        enduranceThenMass).1 (by decide)).2 0 hpParam (by decide) (by decide)⟩,
    ⟨by decide, by decide, by decide, by decide,
      ((Actualize_program_precedence wholeOps constEnv lowSampler 0 hpThenLevel
        enduranceThenMass).2 (by decide)).2 0 enduranceParam (by decide) (by decide)⟩⟩

/-- C10. On a successful `Actualize` (for longs and for doubles) the result has exactly one
entry for each declared parameter, in declaration order, and entry `i` carries the key of
parameter `i`. -/
theorem Actualize_keys_in_order {F R : Type} (ops : Float64Ops F)
    (ec : CelEnvCollection F) (sampler : Sampler F R) (rand : R)
    (lpm : LongParamList) (dpm : DoubleParamList) :
    ((lpm.Actualize ec sampler rand).err = none →
      (lpm.Actualize ec sampler rand).m.length = lpm.Params.length ∧
      (lpm.Actualize ec sampler rand).m.map (fun kv => kv.Key) =
        lpm.Params.map (fun param => param.Key)) ∧
    ((dpm.Actualize ops ec sampler rand).err = none →
      (dpm.Actualize ops ec sampler rand).m.length = dpm.List.length ∧
      (dpm.Actualize ops ec sampler rand).m.map (fun kv => kv.Key) =
        dpm.List.map (fun param => param.Key)) := by
  constructor
  · intro h
    obtain ⟨out, cs, h1, -, h3, -, -⟩ := actualizeLongs_ok ec sampler lpm.Params [] rand [] h
    simp only [List.nil_append] at h1
    unfold LongParamList.Actualize
    rw [h1]
    exact ⟨by simpa using congrArg List.length h3, h3⟩
  · intro h
    obtain ⟨out, cs, h1, -, h3, -, -⟩ :=
      actualizeDoubles_ok ops ec sampler dpm.List [] rand [] h
    simp only [List.nil_append] at h1
    unfold DoubleParamList.Actualize
    rw [h1]
    exact ⟨by simpa using congrArg List.length h3, h3⟩

theorem Actualize_keys_in_order_witness :
    ((hpThenLevel.Actualize constEnv lowSampler 0).err = none ∧
      (hpThenLevel.Actualize constEnv lowSampler 0).m.length = hpThenLevel.Params.length ∧
      (hpThenLevel.Actualize constEnv lowSampler 0).m.map (fun kv => kv.Key) =
        hpThenLevel.Params.map (fun param => param.Key)) ∧
    ((enduranceThenMass.Actualize wholeOps constEnv lowSampler 0).err = none ∧
      (enduranceThenMass.Actualize wholeOps constEnv lowSampler 0).m.length =
        enduranceThenMass.List.length ∧
      (enduranceThenMass.Actualize wholeOps constEnv lowSampler 0).m.map (fun kv => kv.Key) =
        enduranceThenMass.List.map (fun param => param.Key)) :=
  ⟨⟨by decide,
      (Actualize_keys_in_order wholeOps constEnv lowSampler 0 hpThenLevel
        enduranceThenMass).1 (by decide)⟩,
    ⟨by decide,
      (Actualize_keys_in_order wholeOps constEnv lowSampler 0 hpThenLevel
        enduranceThenMass).2 (by decide)⟩⟩

/-! ## `Actualize`: parameters without a program -/

theorem getElem?_append_cons_length {α : Type} (m : List α) (x : α) (out : List α) :
    (m ++ x :: out)[m.length + 0]? = some x := by
  rw [Nat.add_zero, List.getElem?_append_right (Nat.le_refl _)]
  simp

theorem longParamValue_of_no_program {F R : Type} (ec : CelEnvCollection F)
    (sampler : Sampler F R) (param : LongParam) (rand : R) (calls : List Call)
    (h : param.Program.length = 0) :
    longParamValue ec sampler param rand calls =
      ((sampler.GenerateLong param.WeightTable rand).1,
        (sampler.GenerateLong param.WeightTable rand).2,
        calls ++ [Call.GenerateLong param.WeightTable]) := by
  unfold longParamValue
  rw [if_neg (by omega)]

theorem doubleParamValue_of_no_program {F R : Type} (ec : CelEnvCollection F)
    (sampler : Sampler F R) (param : DoubleParam) (rand : R) (calls : List Call)
    (h : param.Program.length = 0) :
    doubleParamValue ec sampler param rand calls =
      ((sampler.GenerateDouble param.WeightTable rand).1,
        (sampler.GenerateDouble param.WeightTable rand).2,
        calls ++ [Call.GenerateDouble param.WeightTable]) := by
  unfold doubleParamValue
  rw [if_neg (by omega)]

/-- In a successful run of the loop of `LongParamList.Actualize`, a parameter without a
program gets the value `Generate` draws in the state the random source is in after the
parameters before it, and the call made for it is that `Generate`. -/
theorem actualizeLongs_sampled {F R : Type} (ec : CelEnvCollection F) (sampler : Sampler F R)
    (ps : List LongParam) :
    ∀ (m : List LongKeyValue) (rand : R) (calls : List Call),
      (actualizeLongs ec sampler ps m rand calls).err = none →
      ∀ (i : Nat) (param : LongParam), ps[i]? = some param → param.Program.length = 0 →
        ∃ val,
          (sampler.GenerateLong param.WeightTable
            (actualizeLongs ec sampler (ps.take i) m rand calls).rand).1 = .ok val ∧
          (actualizeLongs ec sampler ps m rand calls).m[m.length + i]? =
            some (LongKeyValue.mk param.Key val) ∧
          (actualizeLongs ec sampler ps m rand calls).calls[calls.length + i]? =
            some (Call.GenerateLong param.WeightTable) := by
  induction ps with
  | nil => intro m rand calls _ i param hi; simp at hi
  | cons p rest ih =>
    intro m rand calls h i param hi hprog
    cases hv : longParamValue ec sampler p rand calls with
    | mk r rc =>
      obtain ⟨rand1, calls1⟩ := rc
      cases r with
      | error e => simp [actualizeLongs, hv] at h
      | ok val =>
        simp only [actualizeLongs, hv] at h ⊢
        cases i with
        | zero =>
          simp only [List.getElem?_cons_zero, Option.some.injEq] at hi
          subst hi
          rw [longParamValue_of_no_program ec sampler p rand calls hprog] at hv
          simp only [Prod.mk.injEq] at hv
          obtain ⟨hv1, hv2, hv3⟩ := hv
          obtain ⟨out, cs, h1, h2, -, -, -⟩ := actualizeLongs_ok ec sampler rest _ _ _ h
          refine ⟨val, by simpa [actualizeLongs] using hv1, ?_, ?_⟩
          · rw [h1, List.append_assoc]
            exact getElem?_append_cons_length m _ out
          · rw [h2, ← hv3, List.append_assoc]
            exact getElem?_append_cons_length calls _ cs
        | succ i =>
          simp only [List.getElem?_cons_succ] at hi
          obtain ⟨v, g1, g2, g3⟩ := ih _ _ _ h i param hi hprog
          obtain ⟨c, hc⟩ := longParamValue_calls ec sampler p rand calls
          rw [hv] at hc
          simp only at hc
          subst hc
          refine ⟨v, ?_, ?_, ?_⟩
          · simpa only [List.take_succ_cons, actualizeLongs, hv] using g1
          · rw [← g2]; congr 1; simp; omega
          · rw [← g3]; congr 1; simp; omega

/-- The same for the loop of `DoubleParamList.Actualize`. -/
theorem actualizeDoubles_sampled {F R : Type} (ops : Float64Ops F) (ec : CelEnvCollection F)
    (sampler : Sampler F R) (ps : List DoubleParam) :
    ∀ (m : List DoubleKeyValue) (rand : R) (calls : List Call),
      (actualizeDoubles ops ec sampler ps m rand calls).err = none →
      ∀ (i : Nat) (param : DoubleParam), ps[i]? = some param → param.Program.length = 0 →
        ∃ val,
          (sampler.GenerateDouble param.WeightTable
            (actualizeDoubles ops ec sampler (ps.take i) m rand calls).rand).1 = .ok val ∧
          (actualizeDoubles ops ec sampler ps m rand calls).m[m.length + i]? =
            some (DoubleKeyValue.mk param.Key (ops.ToFloatString val)) ∧
          (actualizeDoubles ops ec sampler ps m rand calls).calls[calls.length + i]? =
            some (Call.GenerateDouble param.WeightTable) := by
  induction ps with
  | nil => intro m rand calls _ i param hi; simp at hi
  | cons p rest ih =>
    intro m rand calls h i param hi hprog
    cases hv : doubleParamValue ec sampler p rand calls with
    | mk r rc =>
      obtain ⟨rand1, calls1⟩ := rc
      cases r with
      | error e => simp [actualizeDoubles, hv] at h
      | ok val =>
        simp only [actualizeDoubles, hv] at h ⊢
        cases i with
        | zero =>
          simp only [List.getElem?_cons_zero, Option.some.injEq] at hi
          subst hi
          rw [doubleParamValue_of_no_program ec sampler p rand calls hprog] at hv
          simp only [Prod.mk.injEq] at hv
          obtain ⟨hv1, hv2, hv3⟩ := hv
          obtain ⟨out, cs, h1, h2, -, -, -⟩ := actualizeDoubles_ok ops ec sampler rest _ _ _ h
          refine ⟨val, by simpa [actualizeDoubles] using hv1, ?_, ?_⟩
          · rw [h1, List.append_assoc]
            exact getElem?_append_cons_length m _ out
          · rw [h2, ← hv3, List.append_assoc]
            exact getElem?_append_cons_length calls _ cs
        | succ i =>
          simp only [List.getElem?_cons_succ] at hi
          obtain ⟨v, g1, g2, g3⟩ := ih _ _ _ h i param hi hprog
          obtain ⟨c, hc⟩ := doubleParamValue_calls ec sampler p rand calls
          rw [hv] at hc
          simp only at hc
          subst hc
          refine ⟨v, ?_, ?_, ?_⟩
          · simpa only [List.take_succ_cons, actualizeDoubles, hv] using g1
          · rw [← g2]; congr 1; simp; omega
          · rw [← g3]; congr 1; simp; omega

/-- C11. On a successful `Actualize` (for longs and for doubles), every parameter whose
`Program` is empty gets the value the `Generate` of its weight table produces, drawn in the state
the random source is in after the parameters before it (rendered by `ToFloatString` for a
double). One call is made for each parameter, and the call made for such a parameter is that
`Generate`, not an evaluation by the expression environment. -/
theorem Actualize_samples_without_program {F R : Type} (ops : Float64Ops F)
    (ec : CelEnvCollection F) (sampler : Sampler F R) (rand : R)
    (lpm : LongParamList) (dpm : DoubleParamList) :
    ((lpm.Actualize ec sampler rand).err = none →
      (lpm.Actualize ec sampler rand).calls.length = lpm.Params.length ∧
      ∀ (i : Nat) (param : LongParam), lpm.Params[i]? = some param →
        param.Program.length = 0 →
        ∃ val,
          (sampler.GenerateLong param.WeightTable
            (LongParamList.Actualize ⟨lpm.Params.take i⟩ ec sampler rand).rand).1 = .ok val ∧
          (lpm.Actualize ec sampler rand).m[i]? = some (LongKeyValue.mk param.Key val) ∧
          (lpm.Actualize ec sampler rand).calls[i]? =
            some (Call.GenerateLong param.WeightTable)) ∧
    ((dpm.Actualize ops ec sampler rand).err = none →
      (dpm.Actualize ops ec sampler rand).calls.length = dpm.List.length ∧
      ∀ (i : Nat) (param : DoubleParam), dpm.List[i]? = some param →
        param.Program.length = 0 →
        ∃ val,
          (sampler.GenerateDouble param.WeightTable
            (DoubleParamList.Actualize ⟨dpm.List.take i⟩ ops ec sampler rand).rand).1 =
              .ok val ∧
          (dpm.Actualize ops ec sampler rand).m[i]? =
            some (DoubleKeyValue.mk param.Key (ops.ToFloatString val)) ∧
          (dpm.Actualize ops ec sampler rand).calls[i]? =
            some (Call.GenerateDouble param.WeightTable)) := by
  constructor
  · intro h
    obtain ⟨out, cs, -, h2, -, h4, -⟩ := actualizeLongs_ok ec sampler lpm.Params [] rand [] h
    refine ⟨?_, ?_⟩
    · unfold LongParamList.Actualize
      rw [h2]; simpa using h4
    · intro i param hi hprog
      have := actualizeLongs_sampled ec sampler lpm.Params [] rand [] h i param hi hprog
      simpa [LongParamList.Actualize] using this
  · intro h
    obtain ⟨out, cs, -, h2, -, h4, -⟩ :=
      actualizeDoubles_ok ops ec sampler dpm.List [] rand [] h
    refine ⟨?_, ?_⟩
    · unfold DoubleParamList.Actualize
      rw [h2]; simpa using h4
    · intro i param hi hprog
      have := actualizeDoubles_sampled ops ec sampler dpm.List [] rand [] h i param hi hprog
      simpa [DoubleParamList.Actualize] using this

theorem Actualize_samples_without_program_witness :
    ((hpThenLevel.Actualize constEnv lowSampler 0).err = none ∧
      hpThenLevel.Params[1]? = some levelParam ∧ levelParam.Program.length = 0 ∧
      ∃ val,
        (lowSampler.GenerateLong levelParam.WeightTable
          (LongParamList.Actualize ⟨hpThenLevel.Params.take 1⟩ constEnv lowSampler 0).rand).1 =
            .ok val ∧
        (hpThenLevel.Actualize constEnv lowSampler 0).m[1]? =
          some (LongKeyValue.mk levelParam.Key val) ∧
        (hpThenLevel.Actualize constEnv lowSampler 0).calls[1]? =
          some (Call.GenerateLong levelParam.WeightTable)) ∧
    ((enduranceThenMass.Actualize wholeOps constEnv lowSampler 0).err = none ∧
      enduranceThenMass.List[1]? = some massParam ∧ massParam.Program.length = 0 ∧
      ∃ val,
        (lowSampler.GenerateDouble massParam.WeightTable
          (DoubleParamList.Actualize ⟨enduranceThenMass.List.take 1⟩ wholeOps constEnv
            lowSampler 0).rand).1 = .ok val ∧
        (enduranceThenMass.Actualize wholeOps constEnv lowSampler 0).m[1]? =
          some (DoubleKeyValue.mk massParam.Key (wholeOps.ToFloatString val)) ∧
        (enduranceThenMass.Actualize wholeOps constEnv lowSampler 0).calls[1]? =
          some (Call.GenerateDouble massParam.WeightTable)) :=
  ⟨⟨by decide, by decide, by decide,
      ((Actualize_samples_without_program wholeOps constEnv lowSampler 0 hpThenLevel
        enduranceThenMass).1 (by decide)).2 1 levelParam (by decide) (by decide)⟩,
    ⟨by decide, by decide, by decide,
      ((Actualize_samples_without_program wholeOps constEnv lowSampler 0 hpThenLevel
        enduranceThenMass).2 (by decide)).2 1 massParam (by decide) (by decide)⟩⟩

/-! ## `Match`: order of the checks -/

theorem firstFailure_append (as bs : List (Option GoError)) :
    firstFailure (as ++ bs) =
      match firstFailure as with
      | some err => some err
      | none => firstFailure bs := by
  induction as with
  | nil => simp [firstFailure]
  | cons a rest ih =>
    cases a with
    | none => simpa [firstFailure] using ih
    | some e => simp [firstFailure]

theorem leadingPasses_le (as : List (Option GoError)) : leadingPasses as ≤ as.length := by
  induction as with
  | nil => simp [leadingPasses]
  | cons a rest ih =>
    cases a with
    | none => simp [leadingPasses, ih]
    | some e => simp [leadingPasses]

theorem leadingPasses_lt_of_failure (as : List (Option GoError))
    (h : firstFailure as ≠ none) : leadingPasses as < as.length := by
  induction as with
  | nil => simp [firstFailure] at h
  | cons a rest ih =>
    cases a with
    | none => simp only [firstFailure] at h; simp [leadingPasses, ih h]
    | some e => simp [leadingPasses]

theorem leadingPasses_of_pass (as : List (Option GoError))
    (h : firstFailure as = none) : leadingPasses as = as.length := by
  induction as with
  | nil => simp [leadingPasses]
  | cons a rest ih =>
    cases a with
    | none => simp only [firstFailure] at h; simp [leadingPasses, ih h]
    | some e => simp [firstFailure] at h

theorem leadingPasses_append (as bs : List (Option GoError)) :
    leadingPasses (as ++ bs) =
      if firstFailure as = none then as.length + leadingPasses bs else leadingPasses as := by
  induction as with
  | nil => cases bs <;> simp [firstFailure, leadingPasses]
  | cons a rest ih =>
    cases a with
    | none =>
      show leadingPasses (none :: (rest ++ bs)) = _
      simp only [leadingPasses, firstFailure, List.length_cons]
      rw [ih]
      split <;> omega
    | some e => simp [firstFailure, leadingPasses]

theorem matchDoubles_eq_firstFailure (item : Item) (ps : List DoubleInputParam) :
    matchDoubles item ps = firstFailure (ps.map (checkDouble item)) := by
  induction ps with
  | nil => rfl
  | cons p rest ih =>
    simp only [matchDoubles, List.map_cons, checkDouble]
    cases item.FindDouble p.Key with
    | none => simp [firstFailure]
    | some v => cases hh : p.Has v <;> simp [firstFailure, ih, hh]

theorem matchLongs_eq_firstFailure (item : Item) (ps : List LongInputParam) :
    matchLongs item ps = firstFailure (ps.map (checkLong item)) := by
  induction ps with
  | nil => rfl
  | cons p rest ih =>
    simp only [matchLongs, List.map_cons, checkLong]
    cases item.FindLong p.Key with
    | none => simp [firstFailure]
    | some v => cases hh : p.Has v <;> simp [firstFailure, ih, hh]

theorem matchStrings_eq_firstFailure (item : Item) (ps : List StringInputParam) :
    matchStrings item ps = firstFailure (ps.map (checkString item)) := by
  induction ps with
  | nil => rfl
  | cons p rest ih =>
    simp only [matchStrings, List.map_cons, checkString]
    cases item.FindString p.Key with
    | none => simp [firstFailure]
    | some v => by_cases hv : v = p.Value <;> simp [firstFailure, ih, hv]

theorem matchConditionDoublesTraced_eq {F : Type} (ops : Float64Ops F) (item : Item)
    (ec : CelEnvCollection F) (ps : List DoubleInputParam) :
    ∀ calls : List Call,
      matchConditionDoublesTraced ops item ec ps calls =
        (firstFailure (ps.map (checkConditionDouble ops item ec)),
          calls ++ (ps.map (fun param => Call.EvalFloat64 param.Key)).take
            (leadingPasses (ps.map (checkConditionDouble ops item ec)) + 1)) := by
  induction ps with
  | nil => intro calls; simp [matchConditionDoublesTraced, firstFailure]
  | cons p rest ih =>
    intro calls
    simp only [matchConditionDoublesTraced, List.map_cons, checkConditionDouble]
    cases ec.EvalFloat64 p.Key with
    | error e => simp [firstFailure, leadingPasses]
    | ok f =>
      cases hd : ops.NewDecFromStr f with
      | error e => simp [firstFailure, leadingPasses, hd]
      | ok dec => cases hh : p.Has dec <;> simp [firstFailure, leadingPasses, ih, hh, hd]

theorem matchConditionLongsTraced_eq {F : Type} (item : Item)
    (ec : CelEnvCollection F) (ps : List LongInputParam) :
    ∀ calls : List Call,
      matchConditionLongsTraced item ec ps calls =
        (firstFailure (ps.map (checkConditionLong item ec)),
          calls ++ (ps.map (fun param => Call.EvalInt64 param.Key)).take
            (leadingPasses (ps.map (checkConditionLong item ec)) + 1)) := by
  induction ps with
  | nil => intro calls; simp [matchConditionLongsTraced, firstFailure]
  | cons p rest ih =>
    intro calls
    simp only [matchConditionLongsTraced, List.map_cons, checkConditionLong]
    cases ec.EvalInt64 p.Key with
    | error e => simp [firstFailure, leadingPasses]
    | ok v => cases hh : p.Has v <;> simp [firstFailure, leadingPasses, ih, hh]

theorem matchConditionStringsTraced_eq {F : Type} (item : Item)
    (ec : CelEnvCollection F) (ps : List StringInputParam) :
    ∀ calls : List Call,
      matchConditionStringsTraced item ec ps calls =
        (firstFailure (ps.map (checkConditionString item ec)),
          calls ++ (ps.map (fun param => Call.EvalString param.Key)).take
            (leadingPasses (ps.map (checkConditionString item ec)) + 1)) := by
  induction ps with
  | nil => intro calls; simp [matchConditionStringsTraced, firstFailure]
  | cons p rest ih =>
    intro calls
    simp only [matchConditionStringsTraced, List.map_cons, checkConditionString]
    cases ec.EvalString p.Key with
    | error e => simp [firstFailure, leadingPasses]
    | ok v => by_cases hv : v = p.Value <;> simp [firstFailure, leadingPasses, ih, hv]

theorem matchConditionDoubles_eq_traced {F : Type} (ops : Float64Ops F) (item : Item)
    (ec : CelEnvCollection F) (ps : List DoubleInputParam) (calls : List Call) :
    matchConditionDoubles ops item ec ps =
      (matchConditionDoublesTraced ops item ec ps calls).1 := by
  induction ps generalizing calls with
  | nil => rfl
  | cons p rest ih =>
    simp only [matchConditionDoubles, matchConditionDoublesTraced]
    cases ec.EvalFloat64 p.Key with
    | error e => rfl
    | ok f =>
      cases hd : ops.NewDecFromStr f with
      | error e => simp [hd]
      | ok dec => cases hh : p.Has dec <;> simp [ih (calls ++ [Call.EvalFloat64 p.Key]), hh, hd]

theorem matchConditionLongs_eq_traced {F : Type} (item : Item)
    (ec : CelEnvCollection F) (ps : List LongInputParam) (calls : List Call) :
    matchConditionLongs item ec ps = (matchConditionLongsTraced item ec ps calls).1 := by
  induction ps generalizing calls with
  | nil => rfl
  | cons p rest ih =>
    simp only [matchConditionLongs, matchConditionLongsTraced]
    cases ec.EvalInt64 p.Key with
    | error e => rfl
    | ok v => cases hh : p.Has v <;> simp [ih (calls ++ [Call.EvalInt64 p.Key]), hh]

theorem matchConditionStrings_eq_traced {F : Type} (item : Item)
    (ec : CelEnvCollection F) (ps : List StringInputParam) (calls : List Call) :
    matchConditionStrings item ec ps = (matchConditionStringsTraced item ec ps calls).1 := by
  induction ps generalizing calls with
  | nil => rfl
  | cons p rest ih =>
    simp only [matchConditionStrings, matchConditionStringsTraced]
    cases ec.EvalString p.Key with
    | error e => rfl
    | ok v => by_cases hv : v = p.Value <;> simp [ih (calls ++ [Call.EvalString p.Key]), hv]


theorem take_leadingPasses_of_pass (cs : List (Option GoError)) (es : List Call)
    (hlen : es.length = cs.length) (h : firstFailure cs = none) :
    es.take (leadingPasses cs + 1) = es := by
  rw [leadingPasses_of_pass cs h]
  exact List.take_of_length_le (by omega)

theorem take_leadingPasses_append (cs ds : List (Option GoError)) (es fs : List Call)
    (hlen : es.length = cs.length) :
    (es ++ fs).take (leadingPasses (cs ++ ds) + 1) =
      if firstFailure cs = none then es ++ fs.take (leadingPasses ds + 1)
      else es.take (leadingPasses cs + 1) := by
  rw [leadingPasses_append]
  by_cases h : firstFailure cs = none
  · simp only [h, if_true]
    rw [List.take_append_eq_append_take, List.take_of_length_le (by omega)]
    congr 2
    omega
  · simp only [h, if_false]
    have := leadingPasses_lt_of_failure cs h
    rw [List.take_append_of_le_length (by omega)]

/-- C17. `Match` runs the checks of a slot in the order declared doubles, declared longs,
declared strings, condition doubles, condition longs, condition strings, each group in list
order, and returns the reason of the first check that fails (`nil` when none does). The
evaluations it asks of the environment are those of the condition checks up to and including
the first failing one, in that order; when a declared field check fails it asks for none. -/
theorem Match_checks_in_order {F : Type} (ops : Float64Ops F) (item : Item)
    (itemInput : ItemInput) (ec : CelEnvCollection F) :
    Match ops item itemInput ec =
      firstFailure (declaredChecks item itemInput ++ conditionChecks ops item itemInput ec) ∧
    (MatchTraced ops item itemInput ec).1 = Match ops item itemInput ec ∧
    (firstFailure (declaredChecks item itemInput) ≠ none →
      (MatchTraced ops item itemInput ec).2 = []) ∧
    (firstFailure (declaredChecks item itemInput) = none →
      (MatchTraced ops item itemInput ec).2 =
        (conditionEvaluations itemInput).take
          (leadingPasses (conditionChecks ops item itemInput ec) + 1)) := by
  have hD := matchDoubles_eq_firstFailure item itemInput.Doubles
  have hL := matchLongs_eq_firstFailure item itemInput.Longs
  have hS := matchStrings_eq_firstFailure item itemInput.Strings
  have hcD := matchConditionDoublesTraced_eq ops item ec itemInput.Conditions.Doubles []
  have hcL := matchConditionLongsTraced_eq item ec itemInput.Conditions.Longs
  have hcS := matchConditionStringsTraced_eq item ec itemInput.Conditions.Strings
  have eD := matchConditionDoubles_eq_traced ops item ec itemInput.Conditions.Doubles []
  have eL := matchConditionLongs_eq_traced item ec itemInput.Conditions.Longs
  have eS := matchConditionStrings_eq_traced item ec itemInput.Conditions.Strings
  have tD := take_leadingPasses_of_pass
    (itemInput.Conditions.Doubles.map (checkConditionDouble ops item ec))
    (itemInput.Conditions.Doubles.map (fun param => Call.EvalFloat64 param.Key)) (by simp)
  have tL := take_leadingPasses_of_pass
    (itemInput.Conditions.Longs.map (checkConditionLong item ec))
    (itemInput.Conditions.Longs.map (fun param => Call.EvalInt64 param.Key)) (by simp)
  have aDL := take_leadingPasses_append
    (itemInput.Conditions.Doubles.map (checkConditionDouble ops item ec))
    (itemInput.Conditions.Longs.map (checkConditionLong item ec))
    (itemInput.Conditions.Doubles.map (fun param => Call.EvalFloat64 param.Key))
    (itemInput.Conditions.Longs.map (fun param => Call.EvalInt64 param.Key)) (by simp)
  have aS := take_leadingPasses_append
    (itemInput.Conditions.Doubles.map (checkConditionDouble ops item ec) ++
      itemInput.Conditions.Longs.map (checkConditionLong item ec))
    (itemInput.Conditions.Strings.map (checkConditionString item ec))
    (itemInput.Conditions.Doubles.map (fun param => Call.EvalFloat64 param.Key) ++
      itemInput.Conditions.Longs.map (fun param => Call.EvalInt64 param.Key))
    (itemInput.Conditions.Strings.map (fun param => Call.EvalString param.Key)) (by simp)
  unfold Match MatchTraced declaredChecks conditionChecks conditionEvaluations
  rw [aS, aDL]
  simp only [firstFailure_append, ← hD, ← hL, ← hS]
  rw [eD, hcD]
  cases matchDoubles item itemInput.Doubles with
  | some e => simp
  | none =>
    cases matchLongs item itemInput.Longs with
    | some e => simp
    | none =>
      cases matchStrings item itemInput.Strings with
      | some e => simp
      | none =>
        simp only [List.nil_append]
        cases h1 : firstFailure (itemInput.Conditions.Doubles.map
            (checkConditionDouble ops item ec)) with
        | some e => simp
        | none =>
          rw [tD h1]
          simp only []
          rw [eL (itemInput.Conditions.Doubles.map (fun param => Call.EvalFloat64 param.Key)),
            hcL]
          cases h2 : firstFailure (itemInput.Conditions.Longs.map
              (checkConditionLong item ec)) with
          | some e => simp
          | none =>
            rw [tL h2]
            simp only []
            rw [eS (itemInput.Conditions.Doubles.map (fun param => Call.EvalFloat64 param.Key) ++
              itemInput.Conditions.Longs.map (fun param => Call.EvalInt64 param.Key)), hcS]
            simp


/-! ## `Match`: reasons -/

/-- Two messages built on the same key differ when their fixed middle parts differ within
their first `n` characters. -/
theorem message_ne (n : Nat) (key a b x y : String)
    (ha : n ≤ a.data.length) (hb : n ≤ b.data.length)
    (hne : a.data.take n ≠ b.data.take n) :
    key ++ a ++ x ≠ key ++ b ++ y := by
  intro h
  have h1 := congrArg String.data h
  simp only [String.data_append, List.append_assoc, List.append_cancel_left_eq] at h1
  have h2 := congrArg (List.take n) h1
  rw [List.take_append_of_le_length ha, List.take_append_of_le_length hb] at h2
  exact hne h2

theorem firstFailure_map_of_pass {α : Type} (f : α → Option GoError) (ps : List α)
    (h : ∀ q ∈ ps, f q = none) : firstFailure (ps.map f) = none := by
  induction ps with
  | nil => rfl
  | cons p rest ih =>
    simp only [List.map_cons, h p (List.mem_cons_self _ _), firstFailure]
    exact ih (fun q hq => h q (List.mem_cons_of_mem _ hq))

theorem matchConditionDoubles_eq_firstFailure {F : Type} (ops : Float64Ops F) (item : Item)
    (ec : CelEnvCollection F) (ps : List DoubleInputParam) :
    matchConditionDoubles ops item ec ps =
      firstFailure (ps.map (checkConditionDouble ops item ec)) := by
  rw [matchConditionDoubles_eq_traced ops item ec ps [], matchConditionDoublesTraced_eq]

theorem matchConditionLongs_eq_firstFailure {F : Type} (item : Item)
    (ec : CelEnvCollection F) (ps : List LongInputParam) :
    matchConditionLongs item ec ps = firstFailure (ps.map (checkConditionLong item ec)) := by
  rw [matchConditionLongs_eq_traced item ec ps [], matchConditionLongsTraced_eq]

theorem matchConditionStrings_eq_firstFailure {F : Type} (item : Item)
    (ec : CelEnvCollection F) (ps : List StringInputParam) :
    matchConditionStrings item ec ps = firstFailure (ps.map (checkConditionString item ec)) := by
  rw [matchConditionStrings_eq_traced item ec ps [], matchConditionStringsTraced_eq]

/-- The function `Match` returns the reason of the first failing check of the slot. -/
theorem Match_eq_firstFailure {F : Type} (ops : Float64Ops F) (item : Item)
    (itemInput : ItemInput) (ec : CelEnvCollection F) :
    Match ops item itemInput ec =
      firstFailure (declaredChecks item itemInput ++ conditionChecks ops item itemInput ec) := by
  unfold Match declaredChecks conditionChecks
  simp only [firstFailure_append, ← matchDoubles_eq_firstFailure, ← matchLongs_eq_firstFailure,
    ← matchStrings_eq_firstFailure, ← matchConditionDoubles_eq_firstFailure,
    ← matchConditionLongs_eq_firstFailure, ← matchConditionStrings_eq_firstFailure]
  cases matchDoubles item itemInput.Doubles <;>
  cases matchLongs item itemInput.Longs <;>
  cases matchStrings item itemInput.Strings <;>
  cases matchConditionDoubles ops item ec itemInput.Conditions.Doubles <;>
  cases matchConditionLongs item ec itemInput.Conditions.Longs <;> rfl

/-- C12. When the first failing check of a slot is a declared double, long or string field
constraint (every check before it passes): if the key of the constraint is absent from the
item, `Match` fails with the "key is not available on the item" reason; if the key is present
with a value the range rejects, or a string other than the declared one, `Match` fails with
the "key range does not match" or "key value does not match" reason. For one key and one
item the "not available" reason differs from both "does not match" reasons. -/
theorem Match_field_reasons {F : Type} (ops : Float64Ops F) (item : Item)
    (itemInput : ItemInput) (ec : CelEnvCollection F) :
    (∀ (pre : List DoubleInputParam) (p : DoubleInputParam) (post : List DoubleInputParam),
      itemInput.Doubles = pre ++ p :: post → (∀ q ∈ pre, checkDouble item q = none) →
      (item.FindDouble p.Key = none →
        Match ops item itemInput ec = some (.wrap ErrItemMatch
          (p.Key ++ " key is not available on the item: item_id=" ++ item.ID))) ∧
      (∀ v, item.FindDouble p.Key = some v → p.Has v = false →
        Match ops item itemInput ec = some (.wrap ErrItemMatch
          (p.Key ++ " key range does not match: item_id=" ++ item.ID)))) ∧
    (∀ (pre : List LongInputParam) (p : LongInputParam) (post : List LongInputParam),
      itemInput.Longs = pre ++ p :: post →
      (∀ q ∈ itemInput.Doubles, checkDouble item q = none) →
      (∀ q ∈ pre, checkLong item q = none) →
      (item.FindLong p.Key = none →
        Match ops item itemInput ec = some (.wrap ErrItemMatch
          (p.Key ++ " key is not available on the item: item_id=" ++ item.ID))) ∧
      (∀ v, item.FindLong p.Key = some v → p.Has v = false →
        Match ops item itemInput ec = some (.wrap ErrItemMatch
          (p.Key ++ " key range does not match: item_id=" ++ item.ID)))) ∧
    (∀ (pre : List StringInputParam) (p : StringInputParam) (post : List StringInputParam),
      itemInput.Strings = pre ++ p :: post →
      (∀ q ∈ itemInput.Doubles, checkDouble item q = none) →
      (∀ q ∈ itemInput.Longs, checkLong item q = none) →
      (∀ q ∈ pre, checkString item q = none) →
      (item.FindString p.Key = none →
        Match ops item itemInput ec = some (.wrap ErrItemMatch
          (p.Key ++ " key is not available on the item: item_id=" ++ item.ID))) ∧
      (∀ v, item.FindString p.Key = some v → v ≠ p.Value →
        Match ops item itemInput ec = some (.wrap ErrItemMatch
          (p.Key ++ " key value does not match: item_id=" ++ item.ID)))) ∧
    (∀ key : String,
      GoError.wrap ErrItemMatch (key ++ " key is not available on the item: item_id=" ++ item.ID)
        ≠ GoError.wrap ErrItemMatch (key ++ " key range does not match: item_id=" ++ item.ID) ∧
      GoError.wrap ErrItemMatch (key ++ " key is not available on the item: item_id=" ++ item.ID)
        ≠ GoError.wrap ErrItemMatch
          (key ++ " key value does not match: item_id=" ++ item.ID)) := by
  refine ⟨?_, ?_, ?_, ?_⟩
  · intro pre p post hsplit hpre
    have h0 := firstFailure_map_of_pass (checkDouble item) pre hpre
    rw [Match_eq_firstFailure]
    unfold declaredChecks
    constructor
    · intro hf
      simp [hsplit, firstFailure_append, h0, checkDouble, hf, firstFailure]
    · intro v hf hh
      simp [hsplit, firstFailure_append, h0, checkDouble, hf, hh, firstFailure]
  · intro pre p post hsplit hD hpre
    have hd := firstFailure_map_of_pass (checkDouble item) _ hD
    have h0 := firstFailure_map_of_pass (checkLong item) pre hpre
    rw [Match_eq_firstFailure]
    unfold declaredChecks
    constructor
    · intro hf
      simp [hsplit, firstFailure_append, hd, h0, checkLong, hf, firstFailure]
    · intro v hf hh
      simp [hsplit, firstFailure_append, hd, h0, checkLong, hf, hh, firstFailure]
  · intro pre p post hsplit hD hL hpre
    have hd := firstFailure_map_of_pass (checkDouble item) _ hD
    have hl := firstFailure_map_of_pass (checkLong item) _ hL
    have h0 := firstFailure_map_of_pass (checkString item) pre hpre
    rw [Match_eq_firstFailure]
    unfold declaredChecks
    constructor
    · intro hf
      simp [hsplit, firstFailure_append, hd, hl, h0, checkString, hf, firstFailure]
    · intro v hf hh
      simp [hsplit, firstFailure_append, hd, hl, h0, checkString, hf, hh, firstFailure]
  · intro key
    constructor
    · intro h
      injection h with _ h
      exact message_ne 6 key _ _ _ _ (by decide) (by decide) (by decide) h
    · intro h
      injection h with _ h
      exact message_ne 6 key _ _ _ _ (by decide) (by decide) (by decide) h

theorem Match_field_reasons_witness :
    slotA.Strings = [] ++ ⟨"Name", "sword"⟩ :: [] ∧
    item2.FindString "Name" = none ∧
    Match wholeOps item2 slotA constEnv = some (.wrap ErrItemMatch
      ("Name" ++ " key is not available on the item: item_id=" ++ item2.ID)) :=
  ⟨by decide, by decide,
    ((Match_field_reasons wholeOps item2 slotA constEnv).2.2.1 [] ⟨"Name", "sword"⟩ [] (by decide)
      (by decide) (by decide) (by decide)).1 (by decide)⟩

theorem Match_checks_in_order_witness :
    (firstFailure (declaredChecks item2 conditionSlot) ≠ none ∧
      (MatchTraced wholeOps item2 conditionSlot constEnv).2 = []) ∧
    (firstFailure (declaredChecks item1 conditionSlot) = none ∧
      (MatchTraced wholeOps item1 conditionSlot constEnv).2 =
        (conditionEvaluations conditionSlot).take
          (leadingPasses (conditionChecks wholeOps item1 conditionSlot constEnv) + 1)) :=
  ⟨⟨by decide,
      (Match_checks_in_order wholeOps item2 conditionSlot constEnv).2.2.1 (by decide)⟩,
    ⟨by decide,
      (Match_checks_in_order wholeOps item1 conditionSlot constEnv).2.2.2 (by decide)⟩⟩

/-- C13, as stated, fails on the code. The only check of the slot is the double condition
`1e21` in `[0, 10]`. The expression evaluates without error, to a value above the range, and
that value, which `%v` renders as `1e+21`, does not convert to a decimal: `Match` returns the
conversion error as it is (line 62), which is not the "expression range does not match"
reason. -/
theorem Match_condition_conversion_error :
    bigEnv.EvalFloat64 "1e21" = .ok 1000000000000000000000 ∧
    (∀ p ∈ atMostTen.Conditions.Doubles,
      p.MaxValue.raw < 1000000000000000000000 * 1000000000000000000) ∧
    Match exponentOps item1 atMostTen bigEnv =
      some (.plain "failed to set decimal string: 1e+21000000000000000000") ∧
    Match exponentOps item1 atMostTen bigEnv ≠ some (.wrap ErrItemMatch
      ("1e21" ++ " expression range does not match: item_id=" ++ item1.ID)) :=
  ⟨rfl, by decide, by decide, by decide⟩

/-- C13, amended. When the declared field checks of a slot all pass and the first failing
check is a condition expression (every condition check before it passes): if evaluating the
expression returns an error, `Match` fails with the "expression is invalid" reason; if it
evaluates to a decimal the range rejects, to a long the range rejects, or to a string other
than the declared one, `Match` fails with the "expression range does not match" or
"expression value does not match" reason; if a double condition evaluates to a value that
does not convert to a decimal, `Match` returns the conversion error itself. For one key,
one item and one evaluation error the "is invalid" reason differs from both "does not
match" reasons. -/
theorem Match_condition_reasons {F : Type} (ops : Float64Ops F) (item : Item)
    (itemInput : ItemInput) (ec : CelEnvCollection F)
    (hdeclared : firstFailure (declaredChecks item itemInput) = none) :
    (∀ (pre : List DoubleInputParam) (p : DoubleInputParam) (post : List DoubleInputParam),
      itemInput.Conditions.Doubles = pre ++ p :: post →
      (∀ q ∈ pre, checkConditionDouble ops item ec q = none) →
      (∀ err, ec.EvalFloat64 p.Key = .error err →
        Match ops item itemInput ec = some (.wrap ErrItemMatch
          (p.Key ++ " expression is invalid: item_id=" ++ item.ID ++ ", " ++ err.Error))) ∧
      (∀ f err, ec.EvalFloat64 p.Key = .ok f → ops.NewDecFromStr f = .error err →
        Match ops item itemInput ec = some err) ∧
      (∀ f dec, ec.EvalFloat64 p.Key = .ok f → ops.NewDecFromStr f = .ok dec →
        p.Has dec = false →
        Match ops item itemInput ec = some (.wrap ErrItemMatch
          (p.Key ++ " expression range does not match: item_id=" ++ item.ID)))) ∧
    (∀ (pre : List LongInputParam) (p : LongInputParam) (post : List LongInputParam),
      itemInput.Conditions.Longs = pre ++ p :: post →
      (∀ q ∈ itemInput.Conditions.Doubles, checkConditionDouble ops item ec q = none) →
      (∀ q ∈ pre, checkConditionLong item ec q = none) →
      (∀ err, ec.EvalInt64 p.Key = .error err →
        Match ops item itemInput ec = some (.wrap ErrItemMatch
          (p.Key ++ " expression is invalid: item_id=" ++ item.ID ++ ", " ++ err.Error))) ∧
      (∀ v, ec.EvalInt64 p.Key = .ok v → p.Has v = false →
        Match ops item itemInput ec = some (.wrap ErrItemMatch
          (p.Key ++ " expression range does not match: item_id=" ++ item.ID)))) ∧
    (∀ (pre : List StringInputParam) (p : StringInputParam) (post : List StringInputParam),
      itemInput.Conditions.Strings = pre ++ p :: post →
      (∀ q ∈ itemInput.Conditions.Doubles, checkConditionDouble ops item ec q = none) →
      (∀ q ∈ itemInput.Conditions.Longs, checkConditionLong item ec q = none) →
      (∀ q ∈ pre, checkConditionString item ec q = none) →
      (∀ err, ec.EvalString p.Key = .error err →
        Match ops item itemInput ec = some (.wrap ErrItemMatch
          (p.Key ++ " expression is invalid: item_id=" ++ item.ID ++ ", " ++ err.Error))) ∧
      (∀ v, ec.EvalString p.Key = .ok v → v ≠ p.Value →
        Match ops item itemInput ec = some (.wrap ErrItemMatch
          (p.Key ++ " expression value does not match: item_id=" ++ item.ID)))) ∧
    (∀ (key : String) (err : GoError),
      GoError.wrap ErrItemMatch
          (key ++ " expression is invalid: item_id=" ++ item.ID ++ ", " ++ err.Error)
        ≠ GoError.wrap ErrItemMatch
          (key ++ " expression range does not match: item_id=" ++ item.ID) ∧
      GoError.wrap ErrItemMatch
          (key ++ " expression is invalid: item_id=" ++ item.ID ++ ", " ++ err.Error)
        ≠ GoError.wrap ErrItemMatch
          (key ++ " expression value does not match: item_id=" ++ item.ID)) := by
  refine ⟨?_, ?_, ?_, ?_⟩
  · intro pre p post hsplit hpre
    have h0 := firstFailure_map_of_pass (checkConditionDouble ops item ec) pre hpre
    rw [Match_eq_firstFailure, firstFailure_append, hdeclared]
    unfold conditionChecks
    refine ⟨?_, ?_, ?_⟩
    · intro err he
      simp [hsplit, firstFailure_append, h0, checkConditionDouble, he, firstFailure]
    · intro f err he hd
      simp [hsplit, firstFailure_append, h0, checkConditionDouble, he, hd, firstFailure]
    · intro f dec he hd hh
      simp [hsplit, firstFailure_append, h0, checkConditionDouble, he, hd, hh, firstFailure]
  · intro pre p post hsplit hD hpre
    have hd := firstFailure_map_of_pass (checkConditionDouble ops item ec) _ hD
    have h0 := firstFailure_map_of_pass (checkConditionLong item ec) pre hpre
    rw [Match_eq_firstFailure, firstFailure_append, hdeclared]
    unfold conditionChecks
    refine ⟨?_, ?_⟩
    · intro err he
      simp [hsplit, firstFailure_append, hd, h0, checkConditionLong, he, firstFailure]
    · intro v he hh
      simp [hsplit, firstFailure_append, hd, h0, checkConditionLong, he, hh, firstFailure]
  · intro pre p post hsplit hD hL hpre
    have hd := firstFailure_map_of_pass (checkConditionDouble ops item ec) _ hD
    have hl := firstFailure_map_of_pass (checkConditionLong item ec) _ hL
    have h0 := firstFailure_map_of_pass (checkConditionString item ec) pre hpre
    rw [Match_eq_firstFailure, firstFailure_append, hdeclared]
    unfold conditionChecks
    refine ⟨?_, ?_⟩
    · intro err he
      simp [hsplit, firstFailure_append, hd, hl, h0, checkConditionString, he, firstFailure]
    · intro v he hh
      simp [hsplit, firstFailure_append, hd, hl, h0, checkConditionString, he, hh, firstFailure]
  · intro key err
    constructor
    · intro h
      injection h with _ h
      exact message_ne 13 key " expression is invalid: item_id="
        " expression range does not match: item_id=" (item.ID ++ (", " ++ err.Error)) item.ID
        (by decide) (by decide) (by decide) (by simpa only [String.append_assoc] using h)
    · intro h
      injection h with _ h
      exact message_ne 13 key " expression is invalid: item_id="
        " expression value does not match: item_id=" (item.ID ++ (", " ++ err.Error)) item.ID
        (by decide) (by decide) (by decide) (by simpa only [String.append_assoc] using h)

theorem Match_condition_reasons_witness :
    firstFailure (declaredChecks item1 atMostTen) = none ∧
    atMostTen.Conditions.Doubles = [] ++ ⟨"1e21", ⟨0⟩, ⟨10000000000000000000⟩⟩ :: [] ∧
    constEnv.EvalFloat64 "1e21" = .error (.plain "undeclared reference") ∧
    Match wholeOps item1 atMostTen constEnv = some (.wrap ErrItemMatch
      ("1e21" ++ " expression is invalid: item_id=" ++ item1.ID ++ ", " ++
        (GoError.plain "undeclared reference").Error)) :=
  ⟨by decide, by decide, rfl,
    ((Match_condition_reasons wholeOps item1 atMostTen constEnv (by decide)).1 []
      ⟨"1e21", ⟨0⟩, ⟨10000000000000000000⟩⟩ [] (by decide) (by decide)).1 _ rfl⟩

/-! ## `MatchItemInputs`: lookups in the item store -/

theorem CacheInv.cached {F : Type} {k : Keeper F} {recipe : Recipe} {ids : List String}
    {map : List (String × Item)} {calls : List Call} (h : CacheInv k recipe ids map calls)
    {id : String} {item : Item} (hid : id ∈ ids) (hl : map.lookup id = some item) :
    CacheInv k recipe ids ((id, item) :: map)
      (calls ++ [Call.EnvCollection recipe.ID "" item]) := by
  obtain ⟨⟨h1, h2⟩, h3, h4⟩ := h
  refine ⟨⟨?_, ?_⟩, ?_, ?_⟩
  · intro c hc
    rcases List.mem_append.1 hc with hc | hc
    · exact h1 c hc
    · rw [List.mem_singleton] at hc
      exact Or.inr ⟨id, hid, item, h3 id item hl, hc⟩
  · intro id1
    rw [List.count_append]
    simpa using h2 id1
  · intro id1 item1 hl1
    simp only [List.lookup_cons] at hl1
    by_cases hh : id1 = id
    · subst hh; simp at hl1; subst hl1; exact h3 _ _ hl
    · have : (id1 == id) = false := by simpa using hh
      rw [this] at hl1
      exact h3 id1 item1 hl1
  · intro id1 hl1
    simp only [List.lookup_cons] at hl1
    by_cases hh : id1 = id
    · subst hh; simp at hl1
    · have : (id1 == id) = false := by simpa using hh
      rw [this] at hl1
      rw [List.count_append]
      simpa using h4 id1 hl1

theorem CacheInv.fetchFailed {F : Type} {k : Keeper F} {recipe : Recipe} {ids : List String}
    {map : List (String × Item)} {calls : List Call} (h : CacheInv k recipe ids map calls)
    {id : String} (hid : id ∈ ids) (hl : map.lookup id = none) :
    LookedUpOnce k recipe ids (calls ++ [Call.GetItem recipe.CookbookID recipe.ID id]) := by
  obtain ⟨⟨h1, h2⟩, -, h4⟩ := h
  refine ⟨?_, ?_⟩
  · intro c hc
    rcases List.mem_append.1 hc with hc | hc
    · exact h1 c hc
    · rw [List.mem_singleton] at hc
      exact Or.inl ⟨id, hid, hc⟩
  · intro id1
    rw [List.count_append]
    by_cases hh : id1 = id
    · subst hh
      rw [h4 id1 hl]
      simp
    · have := h2 id1
      simp [List.count_cons, hh, Ne.symm hh]
      exact this

theorem CacheInv.fetched {F : Type} {k : Keeper F} {recipe : Recipe} {ids : List String}
    {map : List (String × Item)} {calls : List Call} (h : CacheInv k recipe ids map calls)
    {id : String} {item : Item} (hid : id ∈ ids) (hl : map.lookup id = none)
    (hg : k.GetItem recipe.CookbookID recipe.ID id = some item) :
    CacheInv k recipe ids ((id, item) :: map)
      (calls ++ [Call.GetItem recipe.CookbookID recipe.ID id] ++
        [Call.EnvCollection recipe.ID "" item]) := by
  have hf := h.fetchFailed hid hl
  obtain ⟨⟨h1, h2⟩, h3, h4⟩ := h
  refine ⟨⟨?_, ?_⟩, ?_, ?_⟩
  · intro c hc
    rcases List.mem_append.1 hc with hc | hc
    · exact hf.1 c hc
    · rw [List.mem_singleton] at hc
      exact Or.inr ⟨id, hid, item, hg, hc⟩
  · intro id1
    rw [List.count_append]
    simpa using hf.2 id1
  · intro id1 item1 hl1
    simp only [List.lookup_cons] at hl1
    by_cases hh : id1 = id
    · subst hh; simp at hl1; subst hl1; exact hg
    · have : (id1 == id) = false := by simpa using hh
      rw [this] at hl1
      exact h3 id1 item1 hl1
  · intro id1 hl1
    simp only [List.lookup_cons] at hl1
    by_cases hh : id1 = id
    · subst hh; simp at hl1
    · have : (id1 == id) = false := by simpa using hh
      rw [this] at hl1
      rw [List.count_append, List.count_append]
      have := h4 id1 hl1
      simp [List.count_cons, hh, Ne.symm hh, this]


/-- The inner loop of `MatchItemInputs` keeps the invariant on the cache and the calls. -/
theorem scanCandidates_cacheInv {F : Type} (ops : Float64Ops F) (k : Keeper F)
    (recipe : Recipe) (all : List String) (i : Nat) (slot : ItemInput) (ids : List String) :
    ∀ (j : Nat) (st : MatchState) (err : Option GoError), (∀ id ∈ ids, id ∈ all) →
      CacheInv k recipe all st.inputItemMap st.calls →
      match scanCandidates ops k recipe i slot j ids st err with
      | .returned _ calls => LookedUpOnce k recipe all calls
      | .finished st1 _ => CacheInv k recipe all st1.inputItemMap st1.calls := by
  induction ids with
  | nil => intro j st err _ h; simpa [scanCandidates] using h
  | cons id rest ih =>
    intro j st err hall h
    have hid : id ∈ all := hall id (List.mem_cons_self _ _)
    have hrest : ∀ id1 ∈ rest, id1 ∈ all := fun id1 h1 => hall id1 (List.mem_cons_of_mem _ h1)
    unfold scanCandidates
    by_cases hchk : st.checkedInputItems.getD j false = true
    · simp only [hchk, if_true]
      exact ih (j + 1) st err hrest h
    · simp only [hchk]
      have key : ∀ (item : Item) (calls : List Call),
          CacheInv k recipe all ((id, item) :: st.inputItemMap)
            (calls ++ [Call.EnvCollection recipe.ID "" item]) →
          match (match k.EnvCollection recipe.ID "" item with
            | .error err => Scan.returned (.wrap ErrInvalidRequest err.Error)
                (calls ++ [Call.EnvCollection recipe.ID "" item])
            | .ok ec =>
              match Match ops item slot ec with
              | some err =>
                Scan.finished
                  { matchedItems := st.matchedItems.set i item
                    inputItemMap := (id, item) :: st.inputItemMap
                    checkedInputItems := st.checkedInputItems.set j true
                    calls := calls ++ [Call.EnvCollection recipe.ID "" item] }
                  (some err)
              | none =>
                scanCandidates ops k recipe i slot (j + 1) rest
                  { st with inputItemMap := (id, item) :: st.inputItemMap,
                            calls := calls ++ [Call.EnvCollection recipe.ID "" item] }
                  none) with
          | .returned _ calls => LookedUpOnce k recipe all calls
          | .finished st1 _ => CacheInv k recipe all st1.inputItemMap st1.calls := by
        intro item calls hinv
        cases hec : k.EnvCollection recipe.ID "" item with
        | error e => exact hinv.1
        | ok ec =>
          simp only []
          cases hm : Match ops item slot ec with
          | some e => exact hinv
          | none =>
            exact ih (j + 1)
              { st with inputItemMap := (id, item) :: st.inputItemMap,
                        calls := calls ++ [Call.EnvCollection recipe.ID "" item] }
              none hrest hinv
      cases hl : st.inputItemMap.lookup id with
      | some item => exact key item st.calls (h.cached hid hl)
      | none =>
        cases hg : k.GetItem recipe.CookbookID recipe.ID id with
        | none => exact h.fetchFailed hid hl
        | some item => exact key item _ (h.fetched hid hl hg)

/-- The outer loop of `MatchItemInputs` looks no identifier up twice. -/
theorem matchSlots_lookedUpOnce {F : Type} (ops : Float64Ops F) (k : Keeper F)
    (ids : List String) (recipe : Recipe) (slots : List ItemInput) :
    ∀ (i : Nat) (st : MatchState), CacheInv k recipe ids st.inputItemMap st.calls →
      LookedUpOnce k recipe ids (matchSlots ops k ids recipe i slots st).calls := by
  induction slots with
  | nil => intro i st h; exact h.1
  | cons slot rest ih =>
    intro i st h
    have hs := scanCandidates_cacheInv ops k recipe ids i slot ids 0 st none (fun _ h1 => h1) h
    unfold matchSlots
    cases hscan : scanCandidates ops k recipe i slot 0 ids st none with
    | returned e calls => rw [hscan] at hs; exact hs
    | finished st1 err =>
      rw [hscan] at hs
      cases err with
      | some e => exact hs.1
      | none => exact ih (i + 1) st1 hs

theorem MatchItemInputs_lookedUpOnce {F : Type} (ops : Float64Ops F) (k : Keeper F)
    (ids : List String) (recipe : Recipe) :
    LookedUpOnce k recipe ids (MatchItemInputs ops k ids recipe).calls := by
  unfold MatchItemInputs
  split
  · exact ⟨by simp, by simp⟩
  · exact matchSlots_lookedUpOnce ops k ids recipe recipe.ItemInputs 0 _
      ⟨⟨by simp, by simp⟩, by simp, by simp⟩

/-- C18. During one call of `MatchItemInputs` the item store is queried at most once for
each identifier, whatever the slots and whether or not the submitted list has duplicates.
Every query is for a submitted identifier under the cookbook and recipe of the call, and
every environment is built for the item the store holds for a submitted identifier: a later
use of an identifier works on the same item without a new query. -/
theorem MatchItemInputs_store_queried_once {F : Type} (ops : Float64Ops F) (k : Keeper F)
    (inputItemsIDs : List String) (recipe : Recipe) :
    (∀ cookbookID recipeID id,
      (MatchItemInputs ops k inputItemsIDs recipe).calls.count
        (Call.GetItem cookbookID recipeID id) ≤ 1) ∧
    (∀ cookbookID recipeID id,
      Call.GetItem cookbookID recipeID id ∈ (MatchItemInputs ops k inputItemsIDs recipe).calls →
      cookbookID = recipe.CookbookID ∧ recipeID = recipe.ID ∧ id ∈ inputItemsIDs) ∧
    (∀ recipeID outputID item,
      Call.EnvCollection recipeID outputID item ∈
        (MatchItemInputs ops k inputItemsIDs recipe).calls →
      ∃ id ∈ inputItemsIDs, k.GetItem recipe.CookbookID recipe.ID id = some item) := by
  obtain ⟨h1, h2⟩ := MatchItemInputs_lookedUpOnce ops k inputItemsIDs recipe
  have hget : ∀ cookbookID recipeID id,
      Call.GetItem cookbookID recipeID id ∈ (MatchItemInputs ops k inputItemsIDs recipe).calls →
      cookbookID = recipe.CookbookID ∧ recipeID = recipe.ID ∧ id ∈ inputItemsIDs := by
    intro cb rid id hmem
    rcases h1 _ hmem with ⟨id1, hid1, heq⟩ | ⟨id1, _, item, _, heq⟩
    · injection heq with e1 e2 e3
      subst e3
      exact ⟨e1, e2, hid1⟩
    · cases heq
  refine ⟨?_, hget, ?_⟩
  · intro cb rid id
    by_cases hmem : Call.GetItem cb rid id ∈ (MatchItemInputs ops k inputItemsIDs recipe).calls
    · obtain ⟨e1, e2, -⟩ := hget cb rid id hmem
      subst e1 e2
      exact h2 id
    · rw [List.count_eq_zero_of_not_mem hmem]
      exact Nat.zero_le 1
  · intro rid out item hmem
    rcases h1 _ hmem with ⟨id1, _, heq⟩ | ⟨id1, hid1, item1, hg, heq⟩
    · cases heq
    · injection heq with _ _ e3
      subst e3
      exact ⟨id1, hid1, hg⟩

theorem MatchItemInputs_store_queried_once_witness :
    (MatchItemInputs wholeOps swordKeeper ["item1", "item1"] twoSwordsRecipe).calls =
      [.GetItem "cookbook" "recipe" "item1", .EnvCollection "recipe" "" item1,
        .EnvCollection "recipe" "" item1, .EnvCollection "recipe" "" item1,
        .EnvCollection "recipe" "" item1] ∧
    (MatchItemInputs wholeOps swordKeeper ["item1", "item1"] twoSwordsRecipe).calls.count
      (Call.GetItem "cookbook" "recipe" "item1") ≤ 1 :=
  ⟨by decide,
    (MatchItemInputs_store_queried_once wholeOps swordKeeper ["item1", "item1"]
      twoSwordsRecipe).1 "cookbook" "recipe" "item1"⟩

/-! ## `ExecuteRecipe` -/

theorem uint64_of_nonneg (x : Int) (h0 : 0 ≤ x) (h1 : x < 9223372036854775808) :
    (uint64 x : Int) = x := by
  unfold uint64
  rw [Int.emod_eq_of_lt h0 (by omega)]
  exact Int.toNat_of_nonneg h0

/-- When `ExecuteRecipe` succeeds, the recipe was found and `MatchItemInputs` succeeded on
it, and exactly one execution was passed to `AppendPendingExecution`: the store of pending
executions is the one that call leaves and the response carries the identifier it returns.
That execution carries the creator, cookbook and recipe identifiers of the message and the
block height of the context (converted to `uint64`, which leaves a height that is not
negative as it is), and its `ItemInputs` has the length and order of the list
`MatchItemInputs` returned, record `i` holding the fields of entry `i` of that list. -/
theorem ExecuteRecipe_appends_one_execution {F S : Type} (ops : Float64Ops F)
    (k : MsgServer F S) (store : S) (msg : MsgExecuteRecipe)
    (h : (ExecuteRecipe ops k store msg).err = none) :
    ∃ recipe execution,
      k.GetRecipe msg.CookbookID msg.RecipeID = some recipe ∧
      (MatchItemInputs ops k.keeper msg.ItemIDs recipe).err = none ∧
      (ExecuteRecipe ops k store msg).appended = [execution] ∧
      (ExecuteRecipe ops k store msg).store = (k.AppendPendingExecution store execution).2 ∧
      (ExecuteRecipe ops k store msg).response =
        some ⟨(k.AppendPendingExecution store execution).1⟩ ∧
      execution.Creator = msg.Creator ∧
      execution.CookbookID = msg.CookbookID ∧
      execution.RecipeID = msg.RecipeID ∧
      execution.BlockHeight = uint64 k.BlockHeight ∧
      (0 ≤ k.BlockHeight → k.BlockHeight < 9223372036854775808 →
        (execution.BlockHeight : Int) = k.BlockHeight) ∧
      execution.ItemInputs.length =
        (MatchItemInputs ops k.keeper msg.ItemIDs recipe).items.length ∧
      ∀ (i : Nat) (item : Item),
        (MatchItemInputs ops k.keeper msg.ItemIDs recipe).items[i]? = some item →
        execution.ItemInputs[i]? =
          some (ItemRecord.mk item.ID item.Doubles item.Longs item.Strings) := by
  unfold ExecuteRecipe at h ⊢
  cases hr : k.GetRecipe msg.CookbookID msg.RecipeID with
  | none => simp [hr] at h
  | some recipe =>
    simp only [hr] at h ⊢
    cases hm : MatchItemInputs ops k.keeper msg.ItemIDs recipe with
    | mk items err calls =>
      cases err with
      | some e => simp [hm] at h
      | none =>
        refine ⟨recipe,
          ⟨msg.Creator, msg.CookbookID, msg.RecipeID, k.GetNodeVersionString,
            uint64 k.BlockHeight, [],
            items.map (fun item => ⟨item.ID, item.Doubles, item.Longs, item.Strings⟩)⟩,
          rfl, by rw [hm], rfl, rfl, rfl, rfl, rfl, rfl, rfl,
          uint64_of_nonneg k.BlockHeight, by rw [hm]; simp, ?_⟩
        intro i item hi
        rw [hm] at hi
        simp only at hi
        simp [hi]

theorem ExecuteRecipe_appends_one_execution_witness :
    (ExecuteRecipe wholeOps swordServer [] swordMsg).err = none ∧
    ∃ recipe execution,
      swordServer.GetRecipe swordMsg.CookbookID swordMsg.RecipeID = some recipe ∧
      (MatchItemInputs wholeOps swordServer.keeper swordMsg.ItemIDs recipe).err = none ∧
      (ExecuteRecipe wholeOps swordServer [] swordMsg).appended = [execution] ∧
      (ExecuteRecipe wholeOps swordServer [] swordMsg).store =
        (swordServer.AppendPendingExecution [] execution).2 ∧
      (ExecuteRecipe wholeOps swordServer [] swordMsg).response =
        some ⟨(swordServer.AppendPendingExecution [] execution).1⟩ ∧
      execution.Creator = swordMsg.Creator ∧
      execution.CookbookID = swordMsg.CookbookID ∧
      execution.RecipeID = swordMsg.RecipeID ∧
      execution.BlockHeight = uint64 swordServer.BlockHeight ∧
      (0 ≤ swordServer.BlockHeight → swordServer.BlockHeight < 9223372036854775808 →
        (execution.BlockHeight : Int) = swordServer.BlockHeight) ∧
      execution.ItemInputs.length =
        (MatchItemInputs wholeOps swordServer.keeper swordMsg.ItemIDs recipe).items.length ∧
      ∀ (i : Nat) (item : Item),
        (MatchItemInputs wholeOps swordServer.keeper swordMsg.ItemIDs recipe).items[i]? =
          some item →
        execution.ItemInputs[i]? =
          some (ItemRecord.mk item.ID item.Doubles item.Longs item.Strings) :=
  ⟨by decide, ExecuteRecipe_appends_one_execution wholeOps swordServer [] swordMsg (by decide)⟩

/-- C15. When the recipe is not found, or is found and `MatchItemInputs` fails on it,
`ExecuteRecipe` returns an error and no response, passes no execution to
`AppendPendingExecution`, and leaves the store of pending executions as it was. -/
theorem ExecuteRecipe_atomic_on_failure {F S : Type} (ops : Float64Ops F)
    (k : MsgServer F S) (store : S) (msg : MsgExecuteRecipe)
    (h : k.GetRecipe msg.CookbookID msg.RecipeID = none ∨
      ∃ recipe, k.GetRecipe msg.CookbookID msg.RecipeID = some recipe ∧
        (MatchItemInputs ops k.keeper msg.ItemIDs recipe).err ≠ none) :
    (ExecuteRecipe ops k store msg).response = none ∧
    (ExecuteRecipe ops k store msg).err ≠ none ∧
    (ExecuteRecipe ops k store msg).appended = [] ∧
    (ExecuteRecipe ops k store msg).store = store := by
  unfold ExecuteRecipe
  rcases h with hr | ⟨recipe, hr, hm⟩
  · simp [hr]
  · simp only [hr]
    cases hres : MatchItemInputs ops k.keeper msg.ItemIDs recipe with
    | mk items err calls =>
      rw [hres] at hm
      cases err with
      | some e => simp
      | none => exact absurd rfl hm

theorem ExecuteRecipe_atomic_on_failure_witness :
    (∃ recipe, swordServer.GetRecipe hpMsg.CookbookID hpMsg.RecipeID = some recipe ∧
      (MatchItemInputs wholeOps swordServer.keeper hpMsg.ItemIDs recipe).err ≠ none) ∧
    (ExecuteRecipe wholeOps swordServer [] hpMsg).response = none ∧
    (ExecuteRecipe wholeOps swordServer [] hpMsg).err ≠ none ∧
    (ExecuteRecipe wholeOps swordServer [] hpMsg).appended = [] ∧
    (ExecuteRecipe wholeOps swordServer [] hpMsg).store = [] :=
  ⟨⟨oneSwordRecipe, by decide, by decide⟩,
    ExecuteRecipe_atomic_on_failure wholeOps swordServer [] hpMsg
      (Or.inr ⟨oneSwordRecipe, by decide, by decide⟩)⟩

/-! ## Zero-width weight ranges -/

/-- A table with the single range `[n, n]` of weight one yields `n`, whatever the random
source. -/
theorem Generate_single_point (n : Int) (rand : Rand) :
    ((⟨[⟨n, n, 1⟩]⟩ : IntWeightTable).Generate rand).1 = .ok n := by
  have hmod : rand.source rand.pos % 1 = 0 := Nat.mod_one _
  simp [IntWeightTable.Generate, pickRange, Rand.below, hmod]

/-- C16. Actualizing the long parameters `GenModifyParamsForLong key n` builds (one
parameter, no program, the single weight range `[n, n]` of weight one) succeeds and yields
exactly `[(key, n)]`, for every key, every integer `n`, every environment and every state of
the random source; the table `[(0, 0, 1)]` yields the value `0` every time. -/
theorem Actualize_GenModifyParamsForLong {F : Type} (key : String) (n : Int)
    (ec : CelEnvCollection F)
    (generateDouble : DoubleWeightTable → Rand → Except GoError F × Rand) (rand : Rand) :
    ((GenModifyParamsForLong key n).Longs.Actualize ec
      ⟨IntWeightTable.Generate, generateDouble⟩ rand).err = none ∧
    ((GenModifyParamsForLong key n).Longs.Actualize ec
      ⟨IntWeightTable.Generate, generateDouble⟩ rand).m = [⟨key, n⟩] ∧
    ((⟨[⟨0, 0, 1⟩]⟩ : IntWeightTable).Generate rand).1 = .ok 0 := by
  have hg := Generate_single_point n rand
  refine ⟨?_, ?_, Generate_single_point 0 rand⟩
  · simp [GenModifyParamsForLong, LongParamList.Actualize, actualizeLongs, longParamValue, hg]
  · simp [GenModifyParamsForLong, LongParamList.Actualize, actualizeLongs, longParamValue, hg]

/-! ## `HandlerMsgDisableTrade` -/

/-- C19, as stated, fails on the code in two ways. A trade marked completed that has no
fulfiller is disabled by its initiator: the handler succeeds and writes the trade back with
`Disabled = true`. And when someone other than the initiator asks to disable a completed
trade, the handler fails with the unauthorized error, not with "Cannot disable a completed
trade". -/
theorem HandlerMsgDisableTrade_completed_cases :
    (plainHelpers.ValidateBasic ⟨"completed", alice⟩ = none ∧
      listKeeper.GetTrade tradeStore "completed" = .ok completedNoFulfiller ∧
      completedNoFulfiller.Completed = true ∧
      (HandlerMsgDisableTrade plainHelpers listKeeper tradeStore ⟨"completed", alice⟩).err =
        none ∧
      (HandlerMsgDisableTrade plainHelpers listKeeper tradeStore ⟨"completed", alice⟩).updates =
        [("completed", ⟨alice, ⟨none⟩, true, true⟩)]) ∧
    (plainHelpers.ValidateBasic ⟨"fulfilled", bob⟩ = none ∧
      listKeeper.GetTrade tradeStore "fulfilled" = .ok fulfilledTrade ∧
      fulfilledTrade.Completed = true ∧
      (HandlerMsgDisableTrade plainHelpers listKeeper tradeStore ⟨"fulfilled", bob⟩).err =
        some (.wrap ErrUnauthorized "Trade initiator is not the same as sender") ∧
      (HandlerMsgDisableTrade plainHelpers listKeeper tradeStore ⟨"fulfilled", bob⟩).err ≠
        some (plainHelpers.errInternal (.plain "Cannot disable a completed trade"))) :=
  ⟨⟨by decide, rfl, rfl, by decide, by decide⟩, ⟨by decide, rfl, rfl, by decide, by decide⟩⟩

/-- C19, amended. For every valid `MsgDisableTrade` sent by the initiator of a stored trade
that has `Completed = true` and a fulfiller, `HandlerMsgDisableTrade` fails with "Cannot
disable a completed trade" (wrapped by `errInternal`), returns no result, does not call
`UpdateTrade` and leaves the trade store as it was. -/
theorem HandlerMsgDisableTrade_completed {S : Type} (helpers : HandlerHelpers)
    (keeper : TradeKeeper S) (store : S) (msg : MsgDisableTrade) (trade : Trade)
    (hvalid : helpers.ValidateBasic msg = none)
    (hget : keeper.GetTrade store msg.TradeID = .ok trade)
    (hsender : msg.Sender.Equals trade.Sender = true)
    (hcompleted : trade.Completed = true)
    (hfulfiller : trade.FulFiller.bytes ≠ none) :
    (HandlerMsgDisableTrade helpers keeper store msg).err =
      some (helpers.errInternal (.plain "Cannot disable a completed trade")) ∧
    (HandlerMsgDisableTrade helpers keeper store msg).result = none ∧
    (HandlerMsgDisableTrade helpers keeper store msg).updates = [] ∧
    (HandlerMsgDisableTrade helpers keeper store msg).store = store := by
  unfold HandlerMsgDisableTrade
  simp [hvalid, hget, hsender, hcompleted, hfulfiller]

theorem HandlerMsgDisableTrade_completed_witness :
    plainHelpers.ValidateBasic ⟨"fulfilled", alice⟩ = none ∧
    listKeeper.GetTrade tradeStore "fulfilled" = .ok fulfilledTrade ∧
    alice.Equals fulfilledTrade.Sender = true ∧
    fulfilledTrade.Completed = true ∧
    fulfilledTrade.FulFiller.bytes ≠ none ∧
    (HandlerMsgDisableTrade plainHelpers listKeeper tradeStore ⟨"fulfilled", alice⟩).err =
      some (plainHelpers.errInternal (.plain "Cannot disable a completed trade")) ∧
    (HandlerMsgDisableTrade plainHelpers listKeeper tradeStore ⟨"fulfilled", alice⟩).result =
      none ∧
    (HandlerMsgDisableTrade plainHelpers listKeeper tradeStore ⟨"fulfilled", alice⟩).updates =
      [] ∧
    (HandlerMsgDisableTrade plainHelpers listKeeper tradeStore ⟨"fulfilled", alice⟩).store =
      tradeStore :=
  ⟨by decide, rfl, by decide, rfl, by decide,
    HandlerMsgDisableTrade_completed plainHelpers listKeeper tradeStore ⟨"fulfilled", alice⟩
      fulfilledTrade (by decide) rfl (by decide) rfl (by decide)⟩

/-- C20. For every valid `MsgDisableTrade` whose sender is not the sender of the stored
trade, `HandlerMsgDisableTrade` fails with the unauthorized error, does not call
`UpdateTrade` and leaves the trade store as it was. Whenever the handler succeeds, it called
`UpdateTrade` once, for the identifier of the message, with the stored trade in which
`Disabled` is `true` and every other field is unchanged. -/
theorem HandlerMsgDisableTrade_initiator_only {S : Type} (helpers : HandlerHelpers)
    (keeper : TradeKeeper S) (store : S) (msg : MsgDisableTrade) :
    (∀ trade, helpers.ValidateBasic msg = none →
      keeper.GetTrade store msg.TradeID = .ok trade →
      msg.Sender.Equals trade.Sender = false →
      (HandlerMsgDisableTrade helpers keeper store msg).err =
        some (.wrap ErrUnauthorized "Trade initiator is not the same as sender") ∧
      (HandlerMsgDisableTrade helpers keeper store msg).result = none ∧
      (HandlerMsgDisableTrade helpers keeper store msg).updates = [] ∧
      (HandlerMsgDisableTrade helpers keeper store msg).store = store) ∧
    ((HandlerMsgDisableTrade helpers keeper store msg).err = none →
      ∃ trade written, keeper.GetTrade store msg.TradeID = .ok trade ∧
        (HandlerMsgDisableTrade helpers keeper store msg).updates = [(msg.TradeID, written)] ∧
        (HandlerMsgDisableTrade helpers keeper store msg).store =
          (keeper.UpdateTrade store msg.TradeID written).2 ∧
        written = { trade with Disabled := true } ∧
        written.Disabled = true ∧
        written.Sender = trade.Sender ∧
        written.FulFiller = trade.FulFiller ∧
        written.Completed = trade.Completed) := by
  constructor
  · intro trade hvalid hget hsender
    unfold HandlerMsgDisableTrade
    simp [hvalid, hget, hsender]
  · intro h
    unfold HandlerMsgDisableTrade at h ⊢
    cases hvalid : helpers.ValidateBasic msg with
    | some e => simp [hvalid] at h
    | none =>
      simp only [hvalid] at h ⊢
      cases hget : keeper.GetTrade store msg.TradeID with
      | error e => simp [hget] at h
      | ok trade =>
        simp only [hget] at h ⊢
        by_cases hs : msg.Sender.Equals trade.Sender = true
        · by_cases hc : (trade.Completed && (trade.FulFiller.bytes != none)) = true
          · simp [hs, hc] at h
          · simp only [hs, hc] at h ⊢
            cases hu : keeper.UpdateTrade store msg.TradeID { trade with Disabled := true } with
            | mk e store1 =>
              cases e with
              | some e => simp [hu] at h
              | none =>
                refine ⟨trade, { trade with Disabled := true }, rfl, ?_, ?_, rfl, rfl, rfl,
                  rfl, rfl⟩
                · simp [hu]
                · simp [hu]
        · simp [hs] at h

theorem HandlerMsgDisableTrade_initiator_only_witness :
    (plainHelpers.ValidateBasic ⟨"open", bob⟩ = none ∧
      listKeeper.GetTrade tradeStore "open" = .ok openTrade ∧
      bob.Equals openTrade.Sender = false ∧
      (HandlerMsgDisableTrade plainHelpers listKeeper tradeStore ⟨"open", bob⟩).err =
        some (.wrap ErrUnauthorized "Trade initiator is not the same as sender") ∧
      (HandlerMsgDisableTrade plainHelpers listKeeper tradeStore ⟨"open", bob⟩).result = none ∧
      (HandlerMsgDisableTrade plainHelpers listKeeper tradeStore ⟨"open", bob⟩).updates = [] ∧
      (HandlerMsgDisableTrade plainHelpers listKeeper tradeStore ⟨"open", bob⟩).store =
        tradeStore) ∧
    ((HandlerMsgDisableTrade plainHelpers listKeeper tradeStore ⟨"open", alice⟩).err = none ∧
      ∃ trade written, listKeeper.GetTrade tradeStore "open" = .ok trade ∧
        (HandlerMsgDisableTrade plainHelpers listKeeper tradeStore ⟨"open", alice⟩).updates =
          [("open", written)] ∧
        (HandlerMsgDisableTrade plainHelpers listKeeper tradeStore ⟨"open", alice⟩).store =
          (listKeeper.UpdateTrade tradeStore "open" written).2 ∧
        written = { trade with Disabled := true } ∧
        written.Disabled = true ∧
        written.Sender = trade.Sender ∧
        written.FulFiller = trade.FulFiller ∧
        written.Completed = trade.Completed) :=
  ⟨⟨by decide, rfl, by decide,
      (HandlerMsgDisableTrade_initiator_only plainHelpers listKeeper tradeStore
        ⟨"open", bob⟩).1 openTrade (by decide) rfl (by decide)⟩,
    ⟨by decide,
      (HandlerMsgDisableTrade_initiator_only plainHelpers listKeeper tradeStore
        ⟨"open", alice⟩).2 (by decide)⟩⟩

/-! ## `Match`: a condition inside its range that does not convert -/

/-- Every successful `ExecuteRecipe` appends one execution, and each of its item records is
the record of the zero value `Item{}`: no attribute of a submitted item is copied. -/
theorem ExecuteRecipe_records_of_zero_items {F S : Type} (ops : Float64Ops F)
    (k : MsgServer F S) (store : S) (msg : MsgExecuteRecipe)
    (h : (ExecuteRecipe ops k store msg).err = none) :
    ∃ recipe, k.GetRecipe msg.CookbookID msg.RecipeID = some recipe ∧
      (ExecuteRecipe ops k store msg).appended.map (fun execution => execution.ItemInputs) =
        [List.replicate recipe.ItemInputs.length ⟨"", [], [], []⟩] := by
  unfold ExecuteRecipe at h ⊢
  cases hr : k.GetRecipe msg.CookbookID msg.RecipeID with
  | none => simp [hr] at h
  | some recipe =>
    simp only [hr] at h ⊢
    have hok := MatchItemInputs_ok ops k.keeper msg.ItemIDs recipe
    cases hm : MatchItemInputs ops k.keeper msg.ItemIDs recipe with
    | mk items err calls =>
      cases err with
      | some e => simp [hm] at h
      | none =>
        rw [hm] at hok
        obtain ⟨-, hitems, -⟩ := hok rfl
        simp only at hitems
        refine ⟨recipe, rfl, ?_⟩
        simp [hitems, Item.zero]

end Pylons
